import Mathlib

/-!
Verification of the agile-prediction core engine (similarity scorer, sequence
mapper, recommender, backtest harness, grid-search optimizer) against its
natural-language specification.

The Python source is shallowly embedded: Python floats become `ℚ`, dicts
(which preserve insertion order) become association lists, `Counter`s become
association lists with natural-number values, and fallible operations return
`Except String`.  Python's stable `list.sort(key=..., reverse=True)` is
modelled with Mathlib's stable `List.insertionSort` on the reversed relation.
Branching on the result of a fallible sub-computation is written with
`Option.elim` / `exceptElim`, which is definitionally the `match` the Python
control flow performs.
-/

/-! ### Generic helpers -/

/-- Case analysis on an `Except` value (Python `try`/`raise` control flow). -/
def exceptElim {ε α β : Type} (e : Except ε α) (f : ε → β) (g : α → β) : β :=
  match e with
  | .error x => f x
  | .ok v => g v

/-- Python `list.index` for a present element (returns the list length when
the element is absent, a case the source never exercises). -/
def idxOf {α : Type} [DecidableEq α] (a : α) : List α → ℕ
  | [] => 0
  | b :: t => if b = a then 0 else idxOf a t + 1

/-! ### Ordered-dictionary helpers (Python dict / defaultdict / Counter) -/

/-- Update the value stored at key `k`, keeping its position (Python
`d[k] = v` when `k` is already present); append at the end otherwise. -/
def dictSet {β : Type} : List (String × β) → String → β → List (String × β)
  | [], k, v => [(k, v)]
  | (k0, v0) :: t, k, v =>
      if k0 = k then (k, v) :: t else (k0, v0) :: dictSet t k v

/-- Lookup with default (Python `defaultdict` read). -/
def dictGetD {β : Type} (d : List (String × β)) (k : String) (dflt : β) : β :=
  (List.lookup k d).getD dflt

/-- Python `d[k] += v` on a `defaultdict(float)`. -/
def dictAddQ (d : List (String × ℚ)) (k : String) (v : ℚ) : List (String × ℚ) :=
  dictSet d k (dictGetD d k 0 + v)

/-- Python `c[k] += 1` on a `Counter`. -/
def dictIncr (d : List (String × ℕ)) (k : String) : List (String × ℕ) :=
  dictSet d k (dictGetD d k 0 + 1)

/-- Python `sorted` on integer month lists (ascending). -/
def sortNat (l : List ℕ) : List ℕ :=
  List.insertionSort (· ≤ ·) l

/-- Python `max(values) if values else 1.0`. -/
def maxOr1 : List ℚ → ℚ
  | [] => 1
  | x :: t => t.foldl max x

/-- Python `set.add` on an insertion-ordered set. -/
def setInsert (l : List String) (x : String) : List String :=
  if x ∈ l then l else l ++ [x]

/-! ### Data model: History Store

A team history is a dict from month to maturity vector; a store is a dict
from team name to team history (`DataProcessor.team_histories`). -/

abbrev Vect := List ℚ
abbrev THist := List (ℕ × Vect)
abbrev Store := List (String × THist)

/-- Python `month in history`. -/
def thMem (h : THist) (m : ℕ) : Bool :=
  (List.lookup m h).isSome

/-- Python `history[month]`, with a default for totality (the source only
reads months known to be present). -/
def thGetD (h : THist) (m : ℕ) : Vect :=
  (List.lookup m h).getD []

/-- `DataProcessor.get_all_teams`: the store's keys (unique in Python). -/
def getAllTeams (s : Store) : List String :=
  (s.map Prod.fst).dedup

/-- `DataProcessor.get_team_history`, failing for an unknown team. -/
def getTeamHistory (s : Store) (team : String) : Except String THist :=
  (List.lookup team s).elim (.error "Team not found") .ok

/-- Total variant used where the surrounding Python swallows the exception. -/
def getTeamHistoryD (s : Store) (team : String) : THist :=
  (List.lookup team s).getD []

/-- `DataProcessor.get_all_months`: sorted union of all months across teams. -/
def getAllMonths (s : Store) : List ℕ :=
  sortNat ((s.foldr (fun th acc => th.2.map Prod.fst ++ acc) []).dedup)

/-! ### Sequence Mapper (`src/ml/sequences.py`) -/

/-- The practice names that improved from `curVec` to `nextVec`, in fixed
practice-list (column) order; mirrors the `enumerate(zip(...))` scan. -/
def improvedPractices (practices : List String) (curVec nextVec : Vect) :
    List String :=
  (curVec.zip nextVec).enum.filterMap
    (fun p => if p.2.1 < p.2.2 then some (practices.getD p.1 "") else none)

/-- Transition matrix (practice → practice → count) and per-practice
improvement frequency; both insertion-ordered like the Python `defaultdict
(Counter)` / `Counter`. -/
structure SeqModel where
  transition : List (String × List (String × ℕ))
  freq : List (String × ℕ)
deriving DecidableEq, Repr

/-- `self.transition_matrix[prev][curr] += 1`. -/
def incrEdge (t : List (String × List (String × ℕ))) (a b : String) :
    List (String × List (String × ℕ)) :=
  dictSet t a (dictIncr (dictGetD t a []) b)

/-- Process one consecutive month pair of one team: increment the frequency
of every improved practice and record an edge between each consecutive pair
of improved practices (lines 154-167 of `sequences.py`). -/
def recordPair (practices : List String) (sm : SeqModel)
    (curVec nextVec : Vect) : SeqModel :=
  let improved := improvedPractices practices curVec nextVec
  let freq := improved.foldl dictIncr sm.freq
  let transition :=
    if 1 < improved.length then
      (improved.zip improved.tail).foldl
        (fun t p => incrEdge t p.1 p.2) sm.transition
    else sm.transition
  ⟨transition, freq⟩

/-- Consecutive month pairs of one team restricted to a month list
(`team_months` + the `range(len - 1)` loop). -/
def teamPairs (monthsAvail : List ℕ) (h : THist) : List (ℕ × ℕ) :=
  let tms := sortNat (monthsAvail.filter (fun m => thMem h m))
  tms.zip tms.tail

/-- `SequenceMapper.learn_sequences_up_to_month` (the compute branch,
lines 119-169): learn only from consecutive month pairs strictly below
`maxMonth`, with the source's redundant double-check kept. -/
def learnUpTo (store : Store) (practices : List String) (maxMonth : ℕ) :
    SeqModel :=
  let months := getAllMonths store
  let available := months.filter (fun m => decide (m < maxMonth))
  if available.length < 2 then ⟨[], []⟩
  else
    (getAllTeams store).foldl
      (fun sm team =>
        let h := getTeamHistoryD store team
        (teamPairs available h).foldl
          (fun sm2 p =>
            if maxMonth ≤ p.1 ∨ maxMonth ≤ p.2 then sm2
            else recordPair practices sm2 (thGetD h p.1) (thGetD h p.2))
          sm)
      ⟨[], []⟩

/-- `SequenceMapper.learn_sequences` (lines 62-97): learn from every
consecutive month pair, no cutoff. -/
def learnAll (store : Store) (practices : List String) : SeqModel :=
  let months := getAllMonths store
  (getAllTeams store).foldl
    (fun sm team =>
      let h := getTeamHistoryD store team
      (teamPairs months h).foldl
        (fun sm2 p =>
          recordPair practices sm2 (thGetD h p.1) (thGetD h p.2))
        sm)
    ⟨[], []⟩

/-- Drop every month `≥ maxMonth` from every team history.  Used to state
the anti-leakage property of `learnUpTo`. -/
def restrictStore (store : Store) (maxMonth : ℕ) : Store :=
  store.map (fun th => (th.1, th.2.filter (fun p => decide (p.1 < maxMonth))))

/-- Full mutable state of a `SequenceMapper` object: current matrices, the
`learned` flag, and the cutoff-keyed snapshot cache. -/
structure MapperState where
  transition : List (String × List (String × ℕ))
  freq : List (String × ℕ)
  learned : Bool
  cache : List (ℕ × SeqModel)
deriving DecidableEq, Repr

/-- One call to `learn_sequences_up_to_month(maxMonth)` on a mapper state.
Returns the new state and whether the call was served from the cache
(lines 108-117 vs 119-177 of `sequences.py`; the Python `Counter` copies
made when caching and restoring are identities here). -/
def learnStep (store : Store) (practices : List String) (maxMonth : ℕ)
    (s : MapperState) : MapperState × Bool :=
  (List.lookup maxMonth s.cache).elim
    (let model := learnUpTo store practices maxMonth
     ({ transition := model.transition, freq := model.freq, learned := true,
        cache := s.cache ++ [(maxMonth, model)] },
      false))
    (fun c =>
      ({ s with transition := c.transition, freq := c.freq, learned := true },
       true))

/-- Stable descending sort by a `ℕ`-valued key (Python
`Counter.most_common`, which orders by count descending and is stable on
ties since Python 3.7). -/
def sortDescByCount (l : List (String × ℕ)) : List (String × ℕ) :=
  List.insertionSort (fun x y => y.2 ≤ x.2) l

/-- `SequenceMapper.get_typical_next_practices` for a learned model
(lines 193-205); the not-learned `ValueError` is handled at call sites. -/
def typicalNext (tm : List (String × List (String × ℕ)))
    (practice : String) (topN : ℕ) : List (String × ℚ) :=
  (List.lookup practice tm).elim []
    (fun row =>
      let transitions := (sortDescByCount row).take topN
      let total := (row.map Prod.snd).sum
      if total = 0 then []
      else transitions.map (fun p => (p.1, (p.2 : ℚ) / (total : ℚ))))

/-! ### Similarity Engine (`src/ml/similarity.py`)

`sklearn.metrics.pairwise.cosine_similarity` is an external library routine
over real numbers, and its exact value `v·w / (‖v‖‖w‖)` is irrational for
general rational vectors.  The pipeline below is therefore parametrised by
the similarity kernel `sim`; the concrete instantiations used for the
concrete scenarios return rational cosines and are certified against the
square-root-free characterisation `IsCosine`. -/

def dotQ (v w : Vect) : ℚ :=
  ((v.zip w).map (fun p => p.1 * p.2)).sum

/-- `c` is the cosine similarity of `v` and `w`: zero when a norm is zero
(sklearn's normalisation sends zero vectors to zero similarity), otherwise
`c` has the sign of `v·w` and satisfies `c² ‖v‖² ‖w‖² = (v·w)²`. -/
def IsCosine (v w : Vect) (c : ℚ) : Prop :=
  (dotQ v v * dotQ w w = 0 → c = 0) ∧
  (dotQ v v * dotQ w w ≠ 0 →
    c ^ 2 * (dotQ v v * dotQ w w) = dotQ v w ^ 2 ∧ (0 ≤ c ↔ 0 ≤ dotQ v w))

/-- `SimilarityEngine.find_similar_teams` (lines 108-166): compare the
target's vector at `targetMonth` against every other team's vector at every
strictly earlier month, filter by `minSim`, keep each team's single best
(strictly higher wins, so the earliest such month is kept on ties), sort by
similarity descending (stable), return at most `k`. -/
def findSimilarTeams (sim : Vect → Vect → ℚ) (store : Store)
    (targetTeam : String) (targetMonth : ℕ) (k : ℕ) (minSim : ℚ) :
    Except String (List (String × ℚ × ℕ)) :=
  exceptElim (getTeamHistory store targetTeam) .error (fun targetHistory =>
    (List.lookup targetMonth targetHistory).elim
      (.error "Team has no data for target month")
      (fun targetVector =>
        let pastMonths :=
          (getAllMonths store).filter (fun m => decide (m < targetMonth))
        if pastMonths = [] then .error "No past months available"
        else
          let allSimilarities := pastMonths.foldl (fun acc hm =>
            (getAllTeams store).foldl (fun acc2 team =>
              if team = targetTeam then acc2
              else
                (List.lookup hm (getTeamHistoryD store team)).elim acc2
                  (fun tv =>
                    let s := sim targetVector tv
                    if minSim ≤ s then acc2 ++ [(team, s, hm)] else acc2))
              acc)
            ([] : List (String × ℚ × ℕ))
          if allSimilarities = [] then
            .error "No similar teams found in past months"
          else
            let best := allSimilarities.foldl (fun d c =>
                (List.lookup c.1 d).elim (d ++ [(c.1, c)])
                  (fun b => if b.2.1 < c.2.1 then dictSet d c.1 c else d))
              ([] : List (String × (String × ℚ × ℕ)))
            let sorted := List.insertionSort
              (fun x y : String × ℚ × ℕ => y.2.1 ≤ x.2.1) (best.map Prod.snd)
            .ok (sorted.take k)))

/-! ### Recommendation Engine (`src/ml/recommender.py`) -/

/-- Inner scan of `recommend` step 2 (lines 191-203): the largest forward
improvement per practice over the scanned window. -/
def updateBestImprovements (practices : List String)
    (histState futureState : Vect) (best : List (String × ℚ)) :
    List (String × ℚ) :=
  (histState.zip futureState).enum.foldl (fun b jp =>
      if jp.2.1 < jp.2.2 then
        let p := practices.getD jp.1 ""
        let mag := jp.2.2 - jp.2.1
        (List.lookup p b).elim (b ++ [(p, mag)])
          (fun m0 => if m0 < mag then dictSet b p mag else b)
      else b) best

/-- Forward scan over a neighbour's own sorted months (lines 174-203 of
`recommender.py`): for each step in `aheadSteps` in order, stop when the
neighbour runs out of months or the next month exceeds `currentMonth`,
otherwise accumulate its best improvements.  The source iterates
`range(1, max_months_ahead + 1)` with `max_months_ahead = 3` hard-coded,
i.e. `aheadSteps = [1, 2, 3]` regardless of the
`similar_teams_lookahead_months` argument. -/
def bestImprovements (practices : List String) (sh : THist)
    (histState : Vect) (sMonths : List ℕ) (histIdx : ℕ)
    (currentMonth : ℕ) (aheadSteps : List ℕ) : List (String × ℚ) :=
  (aheadSteps.foldl (fun st ma =>
      if st.1 then st
      else if sMonths.length ≤ histIdx + ma then (true, st.2)
      else
        let fm := sMonths.getD (histIdx + ma) 0
        if currentMonth < fm then (true, st.2)
        else (false, updateBestImprovements practices histState
                       (thGetD sh fm) st.2))
    ((false, []) : Bool × List (String × ℚ))).2

/-- Intermediate state of `recommend` after steps 0-4's normalisation:
`simW` is the value of the Python variable `similarity_weight` after the
neighbour loop of line 158, whose tuple unpacking rebinds the parameter to
each neighbour's similarity score. -/
structure RecParts where
  simW : ℚ
  normSim : List (String × ℚ)
  normSeq : List (String × ℚ)
  currentScores : Vect
deriving DecidableEq, Repr

/-- Steps 0-4 of `RecommendationEngine.recommend` (lines 114-260), up to
and including the separate max-normalisation of the similarity-score and
sequence-score maps.  `aheadSteps` is the list of forward steps used by the
neighbour scan (the source hard-codes `[1, 2, 3]`). -/
def recommendCore (sim : Vect → Vect → ℚ) (store : Store)
    (practices : List String) (targetTeam : String) (currentMonth : ℕ)
    (kSimilar : ℕ) (allowFirstThree : Bool) (similarityWeight : ℚ)
    (recentMonths : ℕ) (minSim : ℚ) (aheadSteps : List ℕ) :
    Except String RecParts :=
  exceptElim (getTeamHistory store targetTeam) .error (fun history =>
    let monthsList := sortNat ((history.map Prod.fst).dedup)
    if (List.lookup currentMonth history).isNone then
      .error "Team has no data for this month"
    else
      let allMonths := getAllMonths store
      if ¬allowFirstThree ∧ 2 ≤ allMonths.length ∧
          currentMonth ∈ allMonths.take 1 then
        .error "Baseline month is the first month"
      else
        let currentScores := thGetD history currentMonth
        let currentIdx := idxOf currentMonth monthsList
        -- Step 0: learn_sequences_up_to_month(current_month); whether served
        -- from the cache or recomputed, the matrices equal `learnUpTo`'s
        -- result for this store and cutoff.
        let tm := (learnUpTo store practices currentMonth).transition
        exceptElim
          (findSimilarTeams sim store targetTeam currentMonth kSimilar minSim)
          .error (fun similarTeams =>
          if similarTeams = [] then .error "No similar teams found"
          else
            -- Step 2: `for similar_team, similarity_weight, historical_month
            -- in similar_teams` rebinds similarity_weight on every iteration.
            let simFold := similarTeams.foldl
              (fun (st : ℚ × List (String × ℚ)) nb =>
                let simW := nb.2.1
                let sh := getTeamHistoryD store nb.1
                (List.lookup nb.2.2 sh).elim (simW, st.2)
                  (fun histState =>
                    let sMonths := sortNat ((sh.map Prod.fst).dedup)
                    let histIdx := idxOf nb.2.2 sMonths
                    let best := bestImprovements practices sh histState
                      sMonths histIdx currentMonth aheadSteps
                    (simW, best.foldl
                      (fun d2 pm => dictAddQ d2 pm.1 (simW * pm.2)) st.2)))
              (similarityWeight, [])
            let similarityScores := simFold.2
            -- Step 3: the target team's recent improvements and their
            -- typical next practices.
            let monthsToCheck := min recentMonths currentIdx
            let recentlyImproved := (List.range monthsToCheck).foldl
              (fun acc i =>
                let pastMonth := monthsList.getD (currentIdx - (i + 1)) 0
                let pastScores := thGetD history pastMonth
                (pastScores.zip currentScores).enum.foldl (fun a jp =>
                    if jp.2.1 < jp.2.2 then
                      let nm := practices.getD jp.1 ""
                      if nm ∈ a then a else a ++ [nm]
                    else a) acc) []
            let sequenceScores := recentlyImproved.foldl (fun d p =>
                (typicalNext tm p 3).foldl
                  (fun d2 np => dictAddQ d2 np.1 np.2) d) []
            -- Step 4 normalisation (lines 252-260).
            let maxSimilarity := maxOr1 (similarityScores.map Prod.snd)
            let normalizedSimilarity := similarityScores.map (fun ps =>
                (ps.1, if 0 < maxSimilarity then ps.2 / maxSimilarity else 0))
            let maxSequence := maxOr1 (sequenceScores.map Prod.snd)
            let normalizedSequence := sequenceScores.map (fun ps =>
                (ps.1, if 0 < maxSequence then ps.2 / maxSequence else 0))
            .ok ⟨simFold.1, normalizedSimilarity, normalizedSequence,
                 currentScores⟩))

/-- Step 4's weighted combination (lines 262-267) over the union of
practices; the union is iterated in first-appearance order (the Python
source iterates a `set`, whose order is unspecified — this only affects the
relative order of equal final scores). -/
def combineScores (w : ℚ) (normSim normSeq : List (String × ℚ)) :
    List (String × ℚ) :=
  ((normSim.map Prod.fst ++ normSeq.map Prod.fst).dedup).map
    (fun p => (p, w * dictGetD normSim p 0 + (1 - w) * dictGetD normSeq p 0))

/-- Steps 5-6 (lines 269-291): normalise by the maximum combined score
(computed before dropping anything), drop practices whose current level is
`≥ 1`, sort by score descending (stable) and truncate to `topN`. -/
def finishRecommend (practices : List String) (currentScores : Vect)
    (topN : ℕ) (practicesScores : List (String × ℚ)) :
    List (String × ℚ × ℚ) :=
  let maxScore := maxOr1 (practicesScores.map Prod.snd)
  let recommendations := practicesScores.foldl (fun acc pc =>
      let currentLevel := currentScores.getD (idxOf pc.1 practices) 0
      if 1 ≤ currentLevel then acc
      else acc ++
        [(pc.1, if 0 < maxScore then pc.2 / maxScore else 0, currentLevel)])
    []
  (List.insertionSort (fun x y : String × ℚ × ℚ => y.2.1 ≤ x.2.1)
    recommendations).take topN

/-- `RecommendationEngine.recommend`.  The `lookaheadMonths` argument
(`similar_teams_lookahead_months`) is accepted but, as in the source, never
used: the neighbour scan always takes steps `[1, 2, 3]`; and the final
combination weight is the Python variable `similarity_weight` as left by the
neighbour loop (the last neighbour's similarity score), not the caller's
argument. -/
def recommend (sim : Vect → Vect → ℚ) (store : Store)
    (practices : List String) (targetTeam : String) (currentMonth : ℕ)
    (topN kSimilar : ℕ) (allowFirstThree : Bool) (similarityWeight : ℚ)
    (lookaheadMonths recentMonths : ℕ) (minSim : ℚ) :
    Except String (List (String × ℚ × ℚ)) :=
  exceptElim (recommendCore sim store practices targetTeam currentMonth
      kSimilar allowFirstThree similarityWeight recentMonths minSim [1, 2, 3])
    .error (fun parts =>
      .ok (finishRecommend practices parts.currentScores topN
        (combineScores parts.simW parts.normSim parts.normSeq)))

/-- Variant following the specification's words for the combination step:
`score = similarityWeight × normSim + (1 − similarityWeight) × normSeq`
with `similarityWeight` the argument of the call.  Compared against
`recommend` to settle the weighted-combination claim. -/
def recommendSpecWeight (sim : Vect → Vect → ℚ) (store : Store)
    (practices : List String) (targetTeam : String) (currentMonth : ℕ)
    (topN kSimilar : ℕ) (allowFirstThree : Bool) (similarityWeight : ℚ)
    (lookaheadMonths recentMonths : ℕ) (minSim : ℚ) :
    Except String (List (String × ℚ × ℚ)) :=
  exceptElim (recommendCore sim store practices targetTeam currentMonth
      kSimilar allowFirstThree similarityWeight recentMonths minSim [1, 2, 3])
    .error (fun parts =>
      .ok (finishRecommend practices parts.currentScores topN
        (combineScores similarityWeight parts.normSim parts.normSeq)))

/-- Variant following the specification's words for the neighbour scan:
the forward scan takes at most `lookaheadMonths` steps
(`aheadSteps = [1, …, lookaheadMonths]`).  Compared against `recommend` to
settle the lookahead claim. -/
def recommendSpecLookahead (sim : Vect → Vect → ℚ) (store : Store)
    (practices : List String) (targetTeam : String) (currentMonth : ℕ)
    (topN kSimilar : ℕ) (allowFirstThree : Bool) (similarityWeight : ℚ)
    (lookaheadMonths recentMonths : ℕ) (minSim : ℚ) :
    Except String (List (String × ℚ × ℚ)) :=
  exceptElim (recommendCore sim store practices targetTeam currentMonth
      kSimilar allowFirstThree similarityWeight recentMonths minSim
      (List.range' 1 lookaheadMonths))
    .error (fun parts =>
      .ok (finishRecommend practices parts.currentScores topN
        (combineScores parts.simW parts.normSim parts.normSeq)))

/-! ### Backtest Engine (`src/validation/backtest.py`) -/

/-- One entry of `per_month_results`. -/
structure MonthResult where
  month : ℕ
  trainMonths : List ℕ
  predictions : ℕ
  correct : ℕ
  accuracy : ℚ
  teamsTested : ℕ
deriving DecidableEq, Repr

/-- The success dictionary returned by `run_backtest` (and by
`_build_partial_results`, which has the same shape with `cancelled = True`). -/
structure BacktestRecord where
  perMonthResults : List MonthResult
  totalPredictions : ℕ
  correctPredictions : ℕ
  overallAccuracy : ℚ
  randomBaseline : ℚ
  improvementGap : ℚ
  improvementFactor : ℚ
  teamsTested : ℕ
  avgImprovementsPerCase : ℚ
  cancelled : Bool
deriving DecidableEq, Repr

/-- `run_backtest` either returns an error dictionary (`{"error": ...}`) or
a success record. -/
inductive BacktestResult where
  | error (msg : String)
  | ok (record : BacktestRecord)
deriving DecidableEq, Repr

def BacktestResult.isError : BacktestResult → Bool
  | .error _ => true
  | .ok _ => false

/-- Case analysis on a `BacktestResult`. -/
def btrElim {β : Type} (r : BacktestResult) (f : String → β)
    (g : BacktestRecord → β) : β :=
  match r with
  | .error e => f e
  | .ok rec => g rec

/-- `scipy.special.comb(x, k, exact=True)`: the exact binomial coefficient
when `x` is a non-negative integer; `none` models the `ValueError` scipy
(≥ 1.11) raises for non-integer or negative arguments with `exact=True`,
which the source catches and turns into the linear fallback. -/
def combExactQ (x : ℚ) (k : ℕ) : Option ℕ :=
  if x.den = 1 ∧ 0 ≤ x.num then some (Nat.choose x.num.toNat k) else none

/-- `overall_accuracy` aggregation (lines 305-309 and 396-400): unweighted
mean of per-month accuracies, `0` with no evaluated months. -/
def meanAccuracy (pm : List MonthResult) : ℚ :=
  if pm = [] then 0
  else ((pm.map MonthResult.accuracy).sum) / (pm.length : ℚ)

/-- The random-baseline computation (lines 314-331 and 403-420), shared
verbatim by `run_backtest` and `_build_partial_results`. -/
def randomBaselineOf (n topN : ℕ) (cases : List ℕ) : ℚ :=
  if cases = [] ∨ n = 0 then 0
  else
    let kAvg : ℚ := ((cases.sum : ℚ)) / (cases.length : ℚ)
    if 0 < kAvg ∧ 0 < topN ∧ kAvg ≤ (n : ℚ) ∧ (topN : ℚ) ≤ (n : ℚ) then
      (combExactQ ((n : ℚ) - kAvg) topN).elim
        (min 1 (kAvg / (n : ℚ) * (topN : ℚ)))
        (fun a => (combExactQ ((n : ℚ)) topN).elim
          (min 1 (kAvg / (n : ℚ) * (topN : ℚ)))
          (fun b =>
            if (b : ℚ) = 0 then min 1 (kAvg / (n : ℚ) * (topN : ℚ))
            else 1 - (a : ℚ) / (b : ℚ)))
    else min 1 (kAvg / (n : ℚ) * (topN : ℚ))

/-- The specification's random-baseline formula, written from its words:
`1 − C(N−k̄, topN)/C(N, topN)`, falling back to the linear approximation
`min(1, (k̄/N)×topN)` exactly when the combinatorial form is inapplicable
(`k̄` not an integer, or `N < k̄`, or `N < topN`).  Used only to compare
with `randomBaselineOf`. -/
def specRandomBaseline (n topN : ℕ) (kAvg : ℚ) : ℚ :=
  if kAvg.den = 1 ∧ kAvg ≤ (n : ℚ) ∧ topN ≤ n then
    1 - (Nat.choose (n - kAvg.num.toNat) topN : ℚ) / (Nat.choose n topN : ℚ)
  else min 1 (kAvg / (n : ℚ) * (topN : ℚ))

/-- Final result assembly, common to the normal tail of `run_backtest`
(lines 305-352) and `_build_partial_results` (lines 393-441), which
duplicate the same aggregation code and differ only in the `cancelled`
flag. -/
def assembleRecord (cancelled : Bool) (perMonth : List MonthResult)
    (totalPred totalCorrect : ℕ) (cases : List ℕ)
    (teamsTested : List String) (n topN : ℕ) : BacktestRecord :=
  let overallAccuracy := meanAccuracy perMonth
  let rb := randomBaselineOf n topN cases
  { perMonthResults := perMonth
    totalPredictions := totalPred
    correctPredictions := totalCorrect
    overallAccuracy := overallAccuracy
    randomBaseline := rb
    improvementGap :=
      if cases = [] ∨ n = 0 then 0 else overallAccuracy - rb
    improvementFactor := if 0 < rb then overallAccuracy / rb else 0
    teamsTested := teamsTested.length
    avgImprovementsPerCase :=
      if cases = [] then 0 else (cases.sum : ℚ) / (cases.length : ℚ)
    cancelled := cancelled }

/-- The six recommendation hyperparameters drawn from the backtest
configuration dictionary (lines 117-122), with the source's defaults. -/
structure BTConfig where
  topN : ℕ
  kSimilar : ℕ
  similarityWeight : ℚ
  lookaheadMonths : ℕ
  recentMonths : ℕ
  minSim : ℚ
deriving DecidableEq, Repr

def defaultBTConfig : BTConfig := ⟨2, 19, 6/10, 3, 3, 3/4⟩

/-- One poll of the cooperative-cancellation callback; the callback is
modelled as a function of the poll counter (`none` = no callback given). -/
def pollCancel (cancel : Option (ℕ → Bool)) (i : ℕ) : Bool × ℕ :=
  cancel.elim (false, i) (fun f => (f i, i + 1))

/-- Mutable state of the backtest month loop. -/
structure BTState where
  pollIdx : ℕ
  perMonth : List MonthResult
  totalPred : ℕ
  totalCorrect : ℕ
  cases : List ℕ
  teamsTested : List String
deriving Repr

/-- Mutable state of the team loop within one test month. -/
structure BTTeamState where
  pollIdx : ℕ
  teamCount : ℕ
  monthPred : ℕ
  monthCorrect : ℕ
  teamsThisMonth : List String
  totalPred : ℕ
  totalCorrect : ℕ
  cases : List ℕ
  teamsTested : List String
deriving Repr

/-- One team's evaluation inside a test month (lines 181-289): poll every
10 teams, find the team's previous month, build the 3-month actual
improvement set, skip empty cases, record the case size, then call
`recommend` (errors skipped) and score the hit. -/
def btTeamStep (sim : Vect → Vect → ℚ) (store : Store)
    (practices : List String) (cfg : BTConfig)
    (cancel : Option (ℕ → Bool)) (months : List ℕ) (testMonth : ℕ)
    (perMonth : List MonthResult) (st : BTTeamState) (team : String) :
    Sum BacktestRecord BTTeamState :=
  let teamCount := st.teamCount + 1
  let polled :=
    if teamCount % 10 = 0 then pollCancel cancel st.pollIdx
    else (false, st.pollIdx)
  if polled.1 then
    .inl (assembleRecord true perMonth st.totalPred st.totalCorrect st.cases
      st.teamsTested practices.length cfg.topN)
  else
    let st := { st with teamCount := teamCount, pollIdx := polled.2 }
    let h := getTeamHistoryD store team
    let teamMonths := sortNat (months.filter (fun m => thMem h m))
    if ¬ thMem h testMonth then .inr st
    else
      let testIdx := idxOf testMonth teamMonths
      if testIdx = 0 then .inr st
      else
        let prevVector := thGetD h (teamMonths.getD (testIdx - 1) 0)
        let imp1 := improvedPractices practices prevVector
          (thGetD h testMonth)
        let imp2 :=
          if testIdx + 1 < teamMonths.length then
            improvedPractices practices prevVector
              (thGetD h (teamMonths.getD (testIdx + 1) 0))
          else []
        let imp3 :=
          if testIdx + 2 < teamMonths.length then
            improvedPractices practices prevVector
              (thGetD h (teamMonths.getD (testIdx + 2) 0))
          else []
        let actual := (imp1 ++ imp2 ++ imp3).dedup
        if actual = [] then .inr st
        else
          let st := { st with cases := st.cases ++ [actual.length] }
          exceptElim
            (recommend sim store practices team
              (teamMonths.getD (testIdx - 1) 0) cfg.topN cfg.kSimilar true
              cfg.similarityWeight cfg.lookaheadMonths cfg.recentMonths
              cfg.minSim)
            (fun _ => .inr st)
            (fun recs =>
              let recommended := (recs.map Prod.fst).dedup
              let hit := recommended.any (fun p => actual.contains p)
              .inr { st with
                monthPred := st.monthPred + 1
                totalPred := st.totalPred + 1
                teamsThisMonth := setInsert st.teamsThisMonth team
                teamsTested := setInsert st.teamsTested team
                monthCorrect := st.monthCorrect + (if hit then 1 else 0)
                totalCorrect := st.totalCorrect + (if hit then 1 else 0) })

/-- One test-month iteration (lines 137-303): poll at the top, poll again
before sequence learning, run the team loop, then append this month's
result row. -/
def btMonthStep (sim : Vect → Vect → ℚ) (store : Store)
    (practices : List String) (cfg : BTConfig)
    (cancel : Option (ℕ → Bool)) (months : List ℕ) (teams : List String)
    (st : BTState) (testMonthIdx : ℕ) : Sum BacktestRecord BTState :=
  let n := practices.length
  let p1 := pollCancel cancel st.pollIdx
  if p1.1 then
    .inl (assembleRecord true st.perMonth st.totalPred st.totalCorrect
      st.cases st.teamsTested n cfg.topN)
  else
    let st := { st with pollIdx := p1.2 }
    let testMonth := months.getD testMonthIdx 0
    let trainMonths := months.take testMonthIdx
    if trainMonths = [] then .inr st
    else
      let p2 := pollCancel cancel st.pollIdx
      if p2.1 then
        .inl (assembleRecord true st.perMonth st.totalPred st.totalCorrect
          st.cases st.teamsTested n cfg.topN)
      else
        let st := { st with pollIdx := p2.2 }
        -- learn_sequences_up_to_month(test_month) refreshes the mapper's
        -- cached state here; each recommend call below re-learns for its
        -- own baseline month, so the refresh has no further effect on the
        -- scores computed in this embedding.
        let inner := teams.foldl
          (fun (acc : Sum BacktestRecord BTTeamState) team =>
            acc.elim .inl
              (fun ts => btTeamStep sim store practices cfg cancel months
                testMonth st.perMonth ts team))
          (.inr ⟨st.pollIdx, 0, 0, 0, [], st.totalPred, st.totalCorrect,
                 st.cases, st.teamsTested⟩)
        inner.elim .inl
          (fun ts =>
            let monthAccuracy :=
              if 0 < ts.monthPred then
                (ts.monthCorrect : ℚ) / (ts.monthPred : ℚ)
              else 0
            .inr { pollIdx := ts.pollIdx
                   perMonth := st.perMonth ++
                     [⟨testMonth, trainMonths, ts.monthPred, ts.monthCorrect,
                       monthAccuracy, ts.teamsThisMonth.length⟩]
                   totalPred := ts.totalPred
                   totalCorrect := ts.totalCorrect
                   cases := ts.cases
                   teamsTested := ts.teamsTested })

/-- `BacktestEngine.run_backtest`: insufficient-data check, then the
rolling-origin loop over test months `4 … last` with cooperative
cancellation; both the cancelled and the completed path return a success
record assembled by the shared aggregation. -/
def runBacktest (sim : Vect → Vect → ℚ) (store : Store)
    (practices : List String) (cfg : BTConfig)
    (cancel : Option (ℕ → Bool)) : BacktestResult :=
  let months := getAllMonths store
  let teams := getAllTeams store
  if months.length < 4 then
    .error "Need at least 4 time periods (start from month 4)"
  else
    let final := (List.range' 3 (months.length - 3)).foldl
      (fun (acc : Sum BacktestRecord BTState) idx =>
        acc.elim .inl
          (fun st => btMonthStep sim store practices cfg cancel months teams
            st idx))
      (.inr ⟨0, [], 0, 0, [], []⟩)
    final.elim .ok
      (fun st =>
        .ok (assembleRecord false st.perMonth st.totalPred st.totalCorrect
          st.cases st.teamsTested practices.length cfg.topN))

/-! ### Optimization Engine (`src/validation/optimizer.py`)

`find_optimal_config` iterates a pre-generated list of configurations,
running one backtest per configuration.  The loop below (lines 314-457) is
embedded over the list of `(configuration, backtest result)` pairs the run
observes — the backtest calls themselves are modelled by `runBacktest`
above — with the shared `_cancelled` flag read at the top of iteration
`idx` modelled as `cancelFlag idx`. -/

/-- One entry of `valid_results` / `all_results` (lines 370-380). -/
structure OptEntry where
  config : BTConfig
  modelAccuracy : ℚ
  randomBaseline : ℚ
  improvementGap : ℚ
  improvementFactor : ℚ
  totalPredictions : ℕ
  correctPredictions : ℕ
deriving DecidableEq, Repr

/-- The result dictionary of `find_optimal_config` (lines 436-450); the
file-persistence field is owned by the filesystem layer and omitted. -/
structure OptResult where
  optimalConfig : Option BTConfig
  modelAccuracy : ℚ
  randomBaseline : ℚ
  improvementGap : ℚ
  improvementFactor : ℚ
  totalPredictions : ℕ
  correctPredictions : ℕ
  totalCombinationsTested : ℕ
  totalCombinationsAvailable : ℕ
  validCombinations : ℕ
  allResults : List OptEntry
  earlyStopped : Bool
  cancelled : Bool
deriving DecidableEq, Repr

/-- Outcome of the optimizer main loop: `valid_results`, `best_config`,
`early_stopped`, `cancelled`, and `tested_count`. -/
structure OptLoopOut where
  valid : List OptEntry
  best : Option OptEntry
  earlyStopped : Bool
  cancelled : Bool
  testedCount : ℕ
deriving Repr

/-- The grid-search loop (lines 321-426): cancellation poll, error skip,
mid-backtest-cancellation break, accuracy filter, best tracking with the
two-tier early-stopping rule, and the `tested_count` bookkeeping
(`idx + 1` on a break, the full count otherwise). -/
def optLoop (minAcc earlyThresh earlyMinFrac : ℚ) (total : ℕ)
    (cancelFlag : ℕ → Bool) :
    ℕ → List (BTConfig × BacktestResult) → List OptEntry → Option OptEntry →
    OptLoopOut
  | _, [], valid, best => ⟨valid, best, false, false, total⟩
  | idx, (cfg, res) :: rest, valid, best =>
    if cancelFlag idx then ⟨valid, best, false, true, idx + 1⟩
    else
      btrElim res
        (fun _ => optLoop minAcc earlyThresh earlyMinFrac total cancelFlag
          (idx + 1) rest valid best)
        (fun r =>
          if r.cancelled then ⟨valid, best, false, true, idx + 1⟩
          else if minAcc ≤ r.overallAccuracy then
            let e : OptEntry := ⟨cfg, r.overallAccuracy, r.randomBaseline,
              r.improvementGap, r.improvementFactor, r.totalPredictions,
              r.correctPredictions⟩
            let valid2 := valid ++ [e]
            if best.elim true
                (fun b => decide (b.improvementGap < e.improvementGap)) then
              let testedFraction : ℚ := (idx + 1 : ℚ) / (total : ℚ)
              if earlyThresh < e.improvementGap ∧
                  (earlyMinFrac ≤ testedFraction ∨
                   (3 / 10 : ℚ) < e.improvementGap) then
                ⟨valid2, some e, true, false, idx + 1⟩
              else if ¬ earlyThresh < e.improvementGap ∧
                  (2 / 10 : ℚ) < e.improvementGap ∧
                  (1 / 2 : ℚ) ≤ testedFraction then
                ⟨valid2, some e, true, false, idx + 1⟩
              else optLoop minAcc earlyThresh earlyMinFrac total cancelFlag
                  (idx + 1) rest valid2 (some e)
            else optLoop minAcc earlyThresh earlyMinFrac total cancelFlag
                (idx + 1) rest valid2 best
          else optLoop minAcc earlyThresh earlyMinFrac total cancelFlag
              (idx + 1) rest valid best)

/-- Stable descending sort by `improvement_gap`
(`valid_results.sort(key=..., reverse=True)`, line 416). -/
def sortByGap (l : List OptEntry) : List OptEntry :=
  List.insertionSort
    (fun x y : OptEntry => y.improvementGap ≤ x.improvementGap) l

/-- `find_optimal_config`'s aggregation of the loop outcome into the
result dictionary (lines 415-450): sort the accepted configurations by
`improvement_gap` descending, cap `all_results` at 50, and report the
tracked best configuration's fields. -/
def findOptimalAggregate (minAcc : ℚ)
    (combos : List (BTConfig × BacktestResult))
    (earlyThresh earlyMinFrac : ℚ) (cancelFlag : ℕ → Bool) : OptResult :=
  let total := combos.length
  let out := optLoop minAcc earlyThresh earlyMinFrac total cancelFlag 0
    combos [] none
  { optimalConfig := out.best.map OptEntry.config
    modelAccuracy := (out.best.map OptEntry.modelAccuracy).getD 0
    randomBaseline := (out.best.map OptEntry.randomBaseline).getD 0
    improvementGap := (out.best.map OptEntry.improvementGap).getD 0
    improvementFactor := (out.best.map OptEntry.improvementFactor).getD 0
    totalPredictions := (out.best.map OptEntry.totalPredictions).getD 0
    correctPredictions := (out.best.map OptEntry.correctPredictions).getD 0
    totalCombinationsTested := out.testedCount
    totalCombinationsAvailable := total
    validCombinations := out.valid.length
    allResults := (sortByGap out.valid).take 50
    earlyStopped := out.earlyStopped
    cancelled := out.cancelled }

/-! ### Concrete stores and similarity kernels for the concrete scenarios

Each kernel is a finite table of exact rational cosine values for the
(target vector, candidate vector) pairs that occur in its store; the
accompanying claim theorems certify the tabled values against `IsCosine`. -/

/-- Cosine table for `storeC1`/`storeC2`: the single target vector is
`[0, 1/2]` and every candidate vector is `[0, 1/4]` (parallel, cosine 1). -/
def simKernelA : Vect → Vect → ℚ := fun v w =>
  if v = [0, 1/2] ∧ w = [0, 1/4] then 1 else 0

/-- Two practices, two months; team B improves P1 by 1/4 and P2 by 1/8
between its months 1 and 2, while team A is static. -/
def storeC1 : Store :=
  [("A", [(1, [0, 1/2]), (2, [0, 1/2])]),
   ("B", [(1, [0, 1/4]), (2, [1/4, 3/8])])]

/-- Two practices, three months; team B's only improvement (P1, by 1/4)
happens two months after its similarity month 1, so it is only visible to a
forward scan of at least two steps. -/
def storeC2 : Store :=
  [("A", [(1, [0, 1/2]), (2, [0, 1/2]), (3, [0, 1/2])]),
   ("B", [(1, [0, 1/4]), (2, [0, 1/4]), (3, [1/4, 1/4])])]

/-- Cosine table for `storeC10`: target vector `[0, 1]`, candidate vector
`[0, 1/2]` (parallel, cosine 1). -/
def simKernelB : Vect → Vect → ℚ := fun v w =>
  if v = [0, 1] ∧ w = [0, 1/2] then 1 else 0

/-- Team A already has P2 at maximal maturity 1; neighbour B improved P2
(by 1/2) more than P1 (by 1/4), so the combined-score maximum is attained
by the practice that is then dropped. -/
def storeC10 : Store :=
  [("A", [(1, [0, 1]), (2, [0, 1])]),
   ("B", [(1, [0, 1/2]), (2, [1/4, 1])])]

/-- A one-team, one-practice store with four months and no improvement
anywhere: the backtest evaluates one test month with zero predictions. -/
def storeW4 : Store :=
  [("A", [(1, [0]), (2, [0]), (3, [0]), (4, [0])])]

/-! ## Infrastructure lemmas -/

theorem exceptElim_error {ε α β : Type} (e : ε) (f : ε → β) (g : α → β) :
    exceptElim (.error e) f g = f e := rfl

theorem exceptElim_ok {ε α β : Type} (v : α) (f : ε → β) (g : α → β) :
    exceptElim (.ok v) f g = g v := rfl

theorem btrElim_error {β : Type} (e : String) (f : String → β)
    (g : BacktestRecord → β) : btrElim (.error e) f g = f e := rfl

theorem btrElim_ok {β : Type} (r : BacktestRecord) (f : String → β)
    (g : BacktestRecord → β) : btrElim (.ok r) f g = g r := rfl

theorem maxOr1_nil : maxOr1 [] = 1 := rfl

theorem maxOr1_cons (x : ℚ) (t : List ℚ) : maxOr1 (x :: t) = t.foldl max x :=
  rfl

theorem lookup_cons_ite {α β : Type} [BEq α] [LawfulBEq α] [DecidableEq α]
    (a k : α) (v : β) (l : List (α × β)) :
    List.lookup a ((k, v) :: l) = if a = k then some v else List.lookup a l := by
  by_cases h : a = k
  · subst h
    simp [List.lookup]
  · have hb : (a == k) = false := by simp [h]
    simp [List.lookup, hb, h]

theorem lookup_append_right {α β : Type} [BEq α] [LawfulBEq α]
    (l : List (α × β)) (k : α) (v : β) (h : List.lookup k l = none) :
    List.lookup k (l ++ [(k, v)]) = some v := by
  induction l with
  | nil => simp [List.lookup]
  | cons p t ih =>
    rw [List.cons_append, List.lookup]
    rw [List.lookup] at h
    rcases hb : k == p.1 with _ | _
    · simp only [hb] at h ⊢
      exact ih h
    · simp [hb] at h

/-! ## C1: the weighted-combination claim -/

theorem evalC1_months : getAllMonths storeC1 = [1, 2] := by
  simp [getAllMonths, storeC1, sortNat, List.insertionSort,
    List.orderedInsert]

theorem evalC1_teams : getAllTeams storeC1 = ["A", "B"] := by
  simp [getAllTeams, storeC1]

theorem evalC1_histA :
    getTeamHistory storeC1 "A" = .ok [(1, [0, 1/2]), (2, [0, 1/2])] := by
  simp [getTeamHistory, storeC1, lookup_cons_ite]

theorem evalC1_hdA :
    getTeamHistoryD storeC1 "A" = [(1, [0, 1/2]), (2, [0, 1/2])] := by
  simp [getTeamHistoryD, storeC1, lookup_cons_ite]

theorem evalC1_hdB :
    getTeamHistoryD storeC1 "B" = [(1, [0, 1/4]), (2, [1/4, 3/8])] := by
  simp [getTeamHistoryD, storeC1, lookup_cons_ite]

theorem evalC1_learn : learnUpTo storeC1 ["P1", "P2"] 2 = ⟨[], []⟩ := by
  simp [learnUpTo, evalC1_months, evalC1_teams]

theorem evalC1_fst :
    findSimilarTeams simKernelA storeC1 "A" 2 19 (3/4) = .ok [("B", 1, 1)] := by
  norm_num [findSimilarTeams, evalC1_months, evalC1_teams, evalC1_histA,
    evalC1_hdA, evalC1_hdB, simKernelA, dictSet, exceptElim_error,
    exceptElim_ok, lookup_cons_ite, List.insertionSort, List.orderedInsert]
  simp

set_option maxHeartbeats 1600000 in
theorem evalC1_core :
    recommendCore simKernelA storeC1 ["P1", "P2"] "A" 2 19 false 0 3 (3/4)
      [1, 2, 3]
      = .ok ⟨1, [("P1", 1), ("P2", 1/2)], [], [0, 1/2]⟩ := by
  simp [recommendCore, evalC1_months, evalC1_fst, evalC1_learn, evalC1_histA,
    evalC1_hdA, evalC1_hdB, thGetD, sortNat, dictAddQ, dictGetD, dictSet,
    idxOf, typicalNext, bestImprovements, updateBestImprovements, maxOr1_nil,
    maxOr1_cons, exceptElim_error, exceptElim_ok, lookup_cons_ite,
    List.insertionSort, List.orderedInsert, List.enum, List.enumFrom,
    max_def, (by norm_num : (0:ℚ) < 1/4), (by norm_num : (1:ℚ)/4 < 3/8),
    (by norm_num : ¬ ((1:ℚ)/4 ≤ 1/8)), (by norm_num : (0:ℚ) < 1/2)]
  try norm_num [dictSet, dictGetD, lookup_cons_ite, maxOr1_nil, maxOr1_cons,
    max_def]
  try simp [maxOr1_nil, maxOr1_cons, max_def,
    (by norm_num : ¬ ((1:ℚ)/4 ≤ 1/8)), (by norm_num : (0:ℚ) < 1/4)]
  try norm_num

/-- C1: the claim says every combined score equals
`similarityWeight × normSim + (1 − similarityWeight) × normSeq` with
`similarityWeight` the argument of the call.  The code contradicts this (and
its own docstring): the neighbour loop's tuple unpacking rebinds the Python
variable `similarity_weight`, so the combination uses the last neighbour's
similarity score instead.  At `storeC1` with argument weight `0` the claim
would make every combined score `0` (team A has no recent improvements, so
the sequence side is empty), yet the code returns positive scores computed
with weight `1` (the sole neighbour's cosine similarity, certified by the
`IsCosine` conjunct). -/
theorem recommend_combination_weight_bug :
    IsCosine [0, 1/2] [0, 1/4] (simKernelA [0, 1/2] [0, 1/4]) ∧
    recommend simKernelA storeC1 ["P1", "P2"] "A" 2 2 19 false 0 3 3 (3/4)
      = .ok [("P1", 1, 0), ("P2", 1/2, 1/2)] ∧
    recommendSpecWeight simKernelA storeC1 ["P1", "P2"] "A" 2 2 19 false 0 3 3
        (3/4)
      = .ok [("P1", 0, 0), ("P2", 0, 1/2)] ∧
    recommend simKernelA storeC1 ["P1", "P2"] "A" 2 2 19 false 0 3 3 (3/4)
      ≠ recommendSpecWeight simKernelA storeC1 ["P1", "P2"] "A" 2 2 19 false 0
          3 3 (3/4) := by
  refine ⟨?_, ?_, ?_, ?_⟩
  · constructor
    · intro h
      norm_num [dotQ] at h
    · intro _
      norm_num [dotQ, simKernelA]
  · simp [recommend, evalC1_core, exceptElim_ok, combineScores,
      finishRecommend, dictGetD, lookup_cons_ite, idxOf, maxOr1_cons,
      maxOr1_nil, max_def, List.insertionSort, List.orderedInsert]
    try norm_num [maxOr1_cons, maxOr1_nil, max_def, List.insertionSort,
      List.orderedInsert]
    try simp [maxOr1_nil, maxOr1_cons, max_def, List.insertionSort,
      List.orderedInsert, (by norm_num : ¬ ((1:ℚ) ≤ 1/2)),
      (by norm_num : (0:ℚ) < 1), (by norm_num : ¬ ((1:ℚ)/2 < 1))]
    try norm_num
  · simp [recommendSpecWeight, evalC1_core, exceptElim_ok, combineScores,
      finishRecommend, dictGetD, lookup_cons_ite, idxOf, maxOr1_cons,
      maxOr1_nil, max_def, List.insertionSort, List.orderedInsert]
    try norm_num [maxOr1_cons, maxOr1_nil, max_def, List.insertionSort,
      List.orderedInsert]
    try simp [maxOr1_nil, maxOr1_cons, max_def, List.insertionSort,
      List.orderedInsert]
    try norm_num
  · intro h
    rw [recommend, recommendSpecWeight, evalC1_core] at h
    simp [exceptElim_ok, combineScores, finishRecommend, dictGetD,
      lookup_cons_ite, idxOf, maxOr1_cons, maxOr1_nil, max_def,
      List.insertionSort, List.orderedInsert] at h
    try norm_num at h
    try simp at h

/-! ## C9: cutoff-keyed memoization of the sequence mapper -/

/-- C9: calling `learn_sequences_up_to_month(M)` a second time (with no
other learning call in between) leaves the transition matrix and the
improvement-frequency counts exactly as after the first call, and the
second call is served from the cutoff-keyed cache (the returned flag is
`true`): on a cache miss the first call stores its computed model under
`M`, on a cache hit both calls restore the same cached snapshot. -/
theorem learnStep_second_call_cached (store : Store)
    (practices : List String) (M : ℕ) (s0 : MapperState) :
    (learnStep store practices M
        (learnStep store practices M s0).1).1.transition
      = (learnStep store practices M s0).1.transition ∧
    (learnStep store practices M (learnStep store practices M s0).1).1.freq
      = (learnStep store practices M s0).1.freq ∧
    (learnStep store practices M (learnStep store practices M s0).1).2
      = true := by
  rcases h : List.lookup M s0.cache with _ | c
  · have h2 := lookup_append_right s0.cache M (learnUpTo store practices M) h
    simp [learnStep, h, h2]
  · simp [learnStep, h]

/-! ## C8: the insufficient-data failure of `run_backtest` -/

theorem isError_sumElim (x : Sum BacktestRecord BTState)
    (g : BTState → BacktestRecord) :
    (x.elim BacktestResult.ok fun st => .ok (g st)).isError = false := by
  rcases x with r | st <;> rfl

/-- C8: `run_backtest` returns its insufficient-data error dictionary
exactly when the History Store has fewer than 4 distinct months; with 4 or
more months every path of the loop (cancelled or completed) ends in a
success record, so the run never fails for any other reason either. -/
theorem runBacktest_insufficient_data_iff (sim : Vect → Vect → ℚ)
    (store : Store) (practices : List String) (cfg : BTConfig)
    (cancel : Option (ℕ → Bool)) :
    (runBacktest sim store practices cfg cancel).isError = true ↔
      (getAllMonths store).length < 4 := by
  by_cases h : (getAllMonths store).length < 4
  · simp [runBacktest, h, BacktestResult.isError]
  · simp [runBacktest, h, isError_sumElim]

/-! ## C7: cancellation at the very first poll -/

theorem foldl_sum_inl {R S I : Type} (step : S → I → Sum R S) (l : List I)
    (r : R) :
    l.foldl (fun (acc : Sum R S) i => acc.elim Sum.inl (fun st => step st i))
      (.inl r) = .inl r := by
  induction l with
  | nil => rfl
  | cons a t ih => simpa using ih

theorem evalW4_months : getAllMonths storeW4 = [1, 2, 3, 4] := by
  simp [getAllMonths, storeW4, sortNat, List.insertionSort,
    List.orderedInsert]

/-- C7: when the cancellation predicate answers `true` at the very first
poll (the check at the top of the first test-month iteration), the result
is a success record of the same shape as an uncancelled run's, with
`cancelled = true`, `per_month_results = []` and `total_predictions = 0`
(and consequently every aggregate field zero). -/
theorem runBacktest_cancelled_first_poll (sim : Vect → Vect → ℚ)
    (store : Store) (practices : List String) (cfg : BTConfig)
    (f : ℕ → Bool) (h4 : 4 ≤ (getAllMonths store).length)
    (hf : f 0 = true) :
    runBacktest sim store practices cfg (some f)
      = .ok ⟨[], 0, 0, 0, 0, 0, 0, 0, 0, true⟩ := by
  have hnot : ¬ (getAllMonths store).length < 4 := by omega
  have hlen : (getAllMonths store).length - 3
      = ((getAllMonths store).length - 4) + 1 := by omega
  rw [runBacktest]
  simp only [hnot, if_false, hlen, List.range'_succ, List.foldl_cons]
  have hstep : btMonthStep sim store practices cfg (some f)
      (getAllMonths store) (getAllTeams store) ⟨0, [], 0, 0, [], []⟩ 3
      = .inl (assembleRecord true [] 0 0 [] [] practices.length cfg.topN) := by
    simp [btMonthStep, pollCancel, hf]
  simp [hstep, foldl_sum_inl, assembleRecord, meanAccuracy,
    randomBaselineOf]

/-- Instantiation of the first-poll cancellation theorem on a concrete
four-month store with an always-true cancellation predicate. -/
theorem runBacktest_cancelled_first_poll_witness :
    4 ≤ (getAllMonths storeW4).length ∧
    (fun _ : ℕ => true) 0 = true ∧
    runBacktest (fun _ _ => 0) storeW4 ["P1"] defaultBTConfig
        (some (fun _ => true))
      = .ok ⟨[], 0, 0, 0, 0, 0, 0, 0, 0, true⟩ :=
  ⟨by rw [evalW4_months]; norm_num, rfl,
   runBacktest_cancelled_first_poll (fun _ _ => 0) storeW4 ["P1"]
     defaultBTConfig (fun _ => true)
     (by rw [evalW4_months]; norm_num) rfl⟩

/-! ## C2: the look-ahead claim -/

theorem evalC2_months : getAllMonths storeC2 = [1, 2, 3] := by
  simp [getAllMonths, storeC2, sortNat, List.insertionSort,
    List.orderedInsert]

theorem evalC2_teams : getAllTeams storeC2 = ["A", "B"] := by
  simp [getAllTeams, storeC2]

theorem evalC2_histA :
    getTeamHistory storeC2 "A"
      = .ok [(1, [0, 1/2]), (2, [0, 1/2]), (3, [0, 1/2])] := by
  simp [getTeamHistory, storeC2, lookup_cons_ite]

theorem evalC2_hdA :
    getTeamHistoryD storeC2 "A"
      = [(1, [0, 1/2]), (2, [0, 1/2]), (3, [0, 1/2])] := by
  simp [getTeamHistoryD, storeC2, lookup_cons_ite]

theorem evalC2_hdB :
    getTeamHistoryD storeC2 "B"
      = [(1, [0, 1/4]), (2, [0, 1/4]), (3, [1/4, 1/4])] := by
  simp [getTeamHistoryD, storeC2, lookup_cons_ite]

theorem evalC2_learn : learnUpTo storeC2 ["P1", "P2"] 3 = ⟨[], []⟩ := by
  simp [learnUpTo, evalC2_months, evalC2_teams, evalC2_hdA, evalC2_hdB,
    teamPairs, thMem, thGetD, sortNat, recordPair, improvedPractices,
    lookup_cons_ite, List.insertionSort, List.orderedInsert, List.enum,
    List.enumFrom]

theorem evalC2_fst :
    findSimilarTeams simKernelA storeC2 "A" 3 19 (3/4) = .ok [("B", 1, 1)] := by
  norm_num [findSimilarTeams, evalC2_months, evalC2_teams, evalC2_histA,
    evalC2_hdA, evalC2_hdB, simKernelA, dictSet, exceptElim_error,
    exceptElim_ok, lookup_cons_ite, List.insertionSort, List.orderedInsert]
  simp

set_option maxHeartbeats 1600000 in
theorem evalC2_core3 :
    recommendCore simKernelA storeC2 ["P1", "P2"] "A" 3 19 false 1 3 (3/4)
      [1, 2, 3]
      = .ok ⟨1, [("P1", 1)], [], [0, 1/2]⟩ := by
  simp [recommendCore, evalC2_months, evalC2_fst, evalC2_learn, evalC2_histA,
    evalC2_hdA, evalC2_hdB, thGetD, sortNat, dictAddQ, dictGetD, dictSet,
    idxOf, typicalNext, bestImprovements, updateBestImprovements, maxOr1_nil,
    maxOr1_cons, exceptElim_error, exceptElim_ok, lookup_cons_ite,
    List.insertionSort, List.orderedInsert, List.enum, List.enumFrom,
    max_def, (by norm_num : (0:ℚ) < 1/4), (by norm_num : (0:ℚ) < 1/2)]
  try norm_num [dictSet, dictGetD, lookup_cons_ite, maxOr1_nil, maxOr1_cons,
    max_def]
  try simp [maxOr1_nil, maxOr1_cons, max_def,
    (by norm_num : (0:ℚ) < 1/4)]
  try norm_num

set_option maxHeartbeats 1600000 in
theorem evalC2_core1 :
    recommendCore simKernelA storeC2 ["P1", "P2"] "A" 3 19 false 1 3 (3/4)
      [1]
      = .ok ⟨1, [], [], [0, 1/2]⟩ := by
  simp [recommendCore, evalC2_months, evalC2_fst, evalC2_learn, evalC2_histA,
    evalC2_hdA, evalC2_hdB, thGetD, sortNat, dictAddQ, dictGetD, dictSet,
    idxOf, typicalNext, bestImprovements, updateBestImprovements, maxOr1_nil,
    maxOr1_cons, exceptElim_error, exceptElim_ok, lookup_cons_ite,
    List.insertionSort, List.orderedInsert, List.enum, List.enumFrom,
    max_def, (by norm_num : (0:ℚ) < 1/4), (by norm_num : (0:ℚ) < 1/2)]
  try norm_num [dictSet, dictGetD, lookup_cons_ite, maxOr1_nil, maxOr1_cons,
    max_def]
  try simp [maxOr1_nil, maxOr1_cons, max_def]
  try norm_num

/-- C2: the claim says the forward scan of each similar team examines at
most `similar_teams_lookahead_months` future months.  The code contradicts
this (and its own docstring): line 174 hard-codes `max_months_ahead = 3`
and never reads the parameter.  At `storeC2` with
`similar_teams_lookahead_months = 1` the neighbour's only improvement lies
two months after its matched month, so a one-step scan finds nothing and
the claimed behaviour returns no recommendations, while the code scans
three steps, finds the improvement and recommends P1.  The `IsCosine`
conjunct certifies the kernel value used for the single neighbour pair. -/
theorem recommend_lookahead_hardcoded_bug :
    IsCosine [0, 1/2] [0, 1/4] (simKernelA [0, 1/2] [0, 1/4]) ∧
    recommend simKernelA storeC2 ["P1", "P2"] "A" 3 2 19 false 1 1 3 (3/4)
      = .ok [("P1", 1, 0)] ∧
    recommendSpecLookahead simKernelA storeC2 ["P1", "P2"] "A" 3 2 19 false 1
        1 3 (3/4)
      = .ok [] ∧
    recommend simKernelA storeC2 ["P1", "P2"] "A" 3 2 19 false 1 1 3 (3/4)
      ≠ recommendSpecLookahead simKernelA storeC2 ["P1", "P2"] "A" 3 2 19
          false 1 1 3 (3/4) := by
  refine ⟨?_, ?_, ?_, ?_⟩
  · constructor
    · intro h
      norm_num [dotQ] at h
    · intro _
      norm_num [dotQ, simKernelA]
  · simp [recommend, evalC2_core3, exceptElim_ok, combineScores,
      finishRecommend, dictGetD, lookup_cons_ite, idxOf, maxOr1_cons,
      maxOr1_nil, max_def, List.insertionSort, List.orderedInsert]
    try norm_num [maxOr1_cons, maxOr1_nil, max_def, List.insertionSort,
      List.orderedInsert]
    try simp [maxOr1_nil, maxOr1_cons, max_def, List.insertionSort,
      List.orderedInsert, (by norm_num : ¬ ((1:ℚ) ≤ 1/2)),
      (by norm_num : (0:ℚ) < 1)]
    try norm_num
  · have hr : List.range' 1 1 = [1] := rfl
    simp [recommendSpecLookahead, hr, evalC2_core1, exceptElim_ok,
      combineScores, finishRecommend, dictGetD, lookup_cons_ite, idxOf,
      maxOr1_cons, maxOr1_nil, max_def, List.insertionSort,
      List.orderedInsert]
    try norm_num
  · intro h
    have hr : List.range' 1 1 = [1] := rfl
    rw [recommend, recommendSpecLookahead, hr, evalC2_core3, evalC2_core1]
      at h
    simp [exceptElim_ok, combineScores, finishRecommend, dictGetD,
      lookup_cons_ite, idxOf, maxOr1_cons, maxOr1_nil, max_def,
      List.insertionSort, List.orderedInsert] at h
    try norm_num at h
    try simp at h

/-! ## C10: normalisation by the maximum over scores that are then dropped -/

theorem evalC10_months : getAllMonths storeC10 = [1, 2] := by
  simp [getAllMonths, storeC10, sortNat, List.insertionSort,
    List.orderedInsert]

theorem evalC10_teams : getAllTeams storeC10 = ["A", "B"] := by
  simp [getAllTeams, storeC10]

theorem evalC10_histA :
    getTeamHistory storeC10 "A" = .ok [(1, [0, 1]), (2, [0, 1])] := by
  simp [getTeamHistory, storeC10, lookup_cons_ite]

theorem evalC10_hdA :
    getTeamHistoryD storeC10 "A" = [(1, [0, 1]), (2, [0, 1])] := by
  simp [getTeamHistoryD, storeC10, lookup_cons_ite]

theorem evalC10_hdB :
    getTeamHistoryD storeC10 "B" = [(1, [0, 1/2]), (2, [1/4, 1])] := by
  simp [getTeamHistoryD, storeC10, lookup_cons_ite]

theorem evalC10_learn : learnUpTo storeC10 ["P1", "P2"] 2 = ⟨[], []⟩ := by
  simp [learnUpTo, evalC10_months, evalC10_teams]

theorem evalC10_fst :
    findSimilarTeams simKernelB storeC10 "A" 2 19 (3/4)
      = .ok [("B", 1, 1)] := by
  norm_num [findSimilarTeams, evalC10_months, evalC10_teams, evalC10_histA,
    evalC10_hdA, evalC10_hdB, simKernelB, dictSet, exceptElim_error,
    exceptElim_ok, lookup_cons_ite, List.insertionSort, List.orderedInsert]
  simp

set_option maxHeartbeats 1600000 in
theorem evalC10_core :
    recommendCore simKernelB storeC10 ["P1", "P2"] "A" 2 19 false 1 3 (3/4)
      [1, 2, 3]
      = .ok ⟨1, [("P1", 1/2), ("P2", 1)], [], [0, 1]⟩ := by
  simp [recommendCore, evalC10_months, evalC10_fst, evalC10_learn,
    evalC10_histA, evalC10_hdA, evalC10_hdB, thGetD, sortNat, dictAddQ,
    dictGetD, dictSet, idxOf, typicalNext, bestImprovements,
    updateBestImprovements, maxOr1_nil, maxOr1_cons, exceptElim_error,
    exceptElim_ok, lookup_cons_ite, List.insertionSort, List.orderedInsert,
    List.enum, List.enumFrom, max_def, (by norm_num : (0:ℚ) < 1/4),
    (by norm_num : (1:ℚ)/2 < 1), (by norm_num : (1:ℚ)/4 ≤ 1/2),
    (by norm_num : (0:ℚ) < 1/2)]
  try norm_num [dictSet, dictGetD, lookup_cons_ite, maxOr1_nil, maxOr1_cons,
    max_def]
  try simp [maxOr1_nil, maxOr1_cons, max_def,
    (by norm_num : (1:ℚ)/4 ≤ 1/2), (by norm_num : (0:ℚ) < 1/2)]
  try norm_num

/-- C10: the final normalisation divisor of `recommend` is the maximum over
all combined practice scores, including scores of practices that are then
dropped for being at current level `≥ 1`; consequently the returned list
can be non-empty with every score strictly below `1`.  On `storeC10` the
greatest combined score (`1`, for P2) belongs to the practice team A
already has at maximal maturity: P2 is dropped, P1 survives with score
`(1/2)/1 = 1/2 < 1`.  The first conjunct certifies the similarity kernel,
the second exhibits the intermediate normalised maps, the third the final
output, and the last states the claimed consequence. -/
theorem recommend_normalizes_by_dropped_max :
    IsCosine [0, 1] [0, 1/2] (simKernelB [0, 1] [0, 1/2]) ∧
    recommendCore simKernelB storeC10 ["P1", "P2"] "A" 2 19 false 1 3 (3/4)
        [1, 2, 3]
      = .ok ⟨1, [("P1", 1/2), ("P2", 1)], [], [0, 1]⟩ ∧
    recommend simKernelB storeC10 ["P1", "P2"] "A" 2 2 19 false 1 3 3 (3/4)
      = .ok [("P1", 1/2, 0)] ∧
    ∃ out,
      recommend simKernelB storeC10 ["P1", "P2"] "A" 2 2 19 false 1 3 3 (3/4)
          = .ok out ∧
        out ≠ [] ∧ ∀ r ∈ out, r.2.1 < 1 := by
  have hrec :
      recommend simKernelB storeC10 ["P1", "P2"] "A" 2 2 19 false 1 3 3 (3/4)
        = .ok [("P1", 1/2, 0)] := by
    simp [recommend, evalC10_core, exceptElim_ok, combineScores,
      finishRecommend, dictGetD, lookup_cons_ite, idxOf, maxOr1_cons,
      maxOr1_nil, max_def, List.insertionSort, List.orderedInsert]
    try norm_num [maxOr1_cons, maxOr1_nil, max_def, List.insertionSort,
      List.orderedInsert]
    try simp [maxOr1_nil, maxOr1_cons, max_def, List.insertionSort,
      List.orderedInsert, (by norm_num : (1:ℚ)/2 ≤ 1),
      (by norm_num : (0:ℚ) < 1)]
    try norm_num
  refine ⟨⟨?_, ?_⟩, evalC10_core, hrec, [("P1", 1/2, 0)], hrec, ?_, ?_⟩
  · intro h
    norm_num [dotQ] at h
  · intro _
    norm_num [dotQ, simKernelB]
  · simp
  · intro r hr
    simp at hr
    rw [hr]
    norm_num

/-! ## C4: the random-baseline formula -/

theorem den_sub_nat_eq_one {n : ℕ} {k : ℚ} (h : ((n : ℚ) - k).den = 1) :
    k.den = 1 := by
  have h1 : ((((n : ℚ) - k).num : ℚ)) = (n : ℚ) - k :=
    (Rat.den_eq_one_iff _).1 h
  have h2 : k = (((n : ℤ) - ((n : ℚ) - k).num : ℤ) : ℚ) := by
    push_cast
    linarith [h1]
  rw [h2]
  exact Rat.den_intCast _

/-- C4: for every assembled backtest record with at least one evaluated
case (and a non-empty practice list, without which no case can ever be
recorded), `random_baseline` equals the specification's formula: the
combinatorial probability `1 − C(N−k̄, topN)/C(N, topN)` whenever `k̄` is an
integer with `k̄ ≤ N` and `topN ≤ N`, and the linear approximation
`min(1, (k̄/N)·topN)` otherwise — `scipy.special.comb(..., exact=True)`
raising on non-integer arguments is exactly what routes the non-integer
case to the fallback, and the code's extra `k̄ > 0` / `topN > 0` guards
route to a fallback that coincides with the combinatorial value there. -/
theorem randomBaseline_combinatorial_or_linear (cancelled : Bool)
    (pm : List MonthResult) (tp tc : ℕ) (cases : List ℕ)
    (tt : List String) (n topN : ℕ) (hc : cases ≠ []) (hn : 0 < n) :
    (assembleRecord cancelled pm tp tc cases tt n topN).randomBaseline
      = specRandomBaseline n topN ((cases.sum : ℚ) / (cases.length : ℚ)) := by
  have hk0 : 0 ≤ ((cases.sum : ℚ)) / ((cases.length : ℚ)) := by positivity
  have hne : ¬(cases = [] ∨ n = 0) := by
    push_neg
    exact ⟨hc, hn.ne'⟩
  show randomBaselineOf n topN cases = _
  rw [randomBaselineOf, specRandomBaseline, if_neg hne]
  generalize ((cases.sum : ℚ)) / ((cases.length : ℚ)) = k at hk0 ⊢
  by_cases hden : k.den = 1
  · have hknum : ((k.num : ℚ)) = k := (Rat.den_eq_one_iff k).1 hden
    have hnum0 : 0 ≤ k.num := Rat.num_nonneg.2 hk0
    by_cases hkn : k ≤ (n : ℚ)
    · by_cases htn : topN ≤ n
      · rw [if_pos (show k.den = 1 ∧ k ≤ (n : ℚ) ∧ topN ≤ n from
          ⟨hden, hkn, htn⟩)]
        have hb : 0 < Nat.choose n topN := Nat.choose_pos htn
        by_cases hkpos : 0 < k
        · by_cases htpos : 0 < topN
          · rw [if_pos (show 0 < k ∧ 0 < topN ∧ k ≤ (n : ℚ) ∧
                (topN : ℚ) ≤ (n : ℚ) from
                ⟨hkpos, htpos, hkn, by exact_mod_cast htn⟩)]
            have hnk : k.num ≤ (n : ℤ) := by
              have := hkn
              rw [← hknum] at this
              exact_mod_cast this
            have hsub : ((n : ℚ)) - k = (((n : ℤ) - k.num : ℤ) : ℚ) := by
              push_cast
              linarith [hknum]
            have hc1 : combExactQ ((n : ℚ) - k) topN
                = some (Nat.choose (n - k.num.toNat) topN) := by
              rw [hsub, combExactQ,
                if_pos (show (((((n : ℤ) - k.num : ℤ) : ℚ)).den = 1 ∧
                  0 ≤ (((((n : ℤ) - k.num : ℤ) : ℚ))).num) from
                  ⟨Rat.den_intCast _, by rw [Rat.num_intCast]; omega⟩)]
              congr 2
              rw [Rat.num_intCast]
              omega
            have hc2 : combExactQ ((n : ℚ)) topN
                = some (Nat.choose n topN) := by
              simp [combExactQ]
            rw [hc1, hc2]
            simp only [Option.elim]
            rw [if_neg (show ¬ ((Nat.choose n topN : ℚ)) = 0 from
              by exact_mod_cast hb.ne')]
          · rw [if_neg (show ¬ (0 < k ∧ 0 < topN ∧ k ≤ (n : ℚ) ∧
                (topN : ℚ) ≤ (n : ℚ)) from fun hh => htpos hh.2.1)]
            have ht0 : topN = 0 := by omega
            subst ht0
            norm_num [Nat.choose_zero_right, min_eq_right]
        · rw [if_neg (show ¬ (0 < k ∧ 0 < topN ∧ k ≤ (n : ℚ) ∧
              (topN : ℚ) ≤ (n : ℚ)) from fun hh => hkpos hh.1)]
          have hkz : k = 0 := le_antisymm (not_lt.1 hkpos) hk0
          subst hkz
          have hbne : ((Nat.choose n topN : ℚ)) ≠ 0 :=
            Nat.cast_ne_zero.2 hb.ne'
          norm_num [div_self hbne, min_eq_right, Rat.num_ofNat,
            Int.toNat_zero]
      · rw [if_neg (show ¬ (0 < k ∧ 0 < topN ∧ k ≤ (n : ℚ) ∧
              (topN : ℚ) ≤ (n : ℚ)) from
            fun hh => htn (by exact_mod_cast hh.2.2.2)),
          if_neg (show ¬ (k.den = 1 ∧ k ≤ (n : ℚ) ∧ topN ≤ n) from
            fun hh => htn hh.2.2)]
    · rw [if_neg (show ¬ (0 < k ∧ 0 < topN ∧ k ≤ (n : ℚ) ∧
            (topN : ℚ) ≤ (n : ℚ)) from fun hh => hkn hh.2.2.1),
        if_neg (show ¬ (k.den = 1 ∧ k ≤ (n : ℚ) ∧ topN ≤ n) from
          fun hh => hkn hh.2.1)]
  · rw [if_neg (show ¬ (k.den = 1 ∧ k ≤ (n : ℚ) ∧ topN ≤ n) from
      fun hh => hden hh.1)]
    by_cases hC : 0 < k ∧ 0 < topN ∧ k ≤ (n : ℚ) ∧ (topN : ℚ) ≤ (n : ℚ)
    · rw [if_pos hC]
      have hnone : combExactQ ((n : ℚ) - k) topN = none := by
        rw [combExactQ, if_neg]
        intro hh
        exact hden (den_sub_nat_eq_one hh.1)
      rw [hnone]
      rfl
    · rw [if_neg hC]

/-- Instantiation of the random-baseline theorem on a concrete record:
two cases of sizes 1 and 2 over three practices give the non-integer mean
`k̄ = 3/2`, so both sides take the linear fallback `min(1, (3/2)/3 · 2)`. -/
theorem randomBaseline_combinatorial_or_linear_witness :
    ([1, 2] : List ℕ) ≠ [] ∧ 0 < 3 ∧
    (assembleRecord false [] 0 0 [1, 2] [] 3 2).randomBaseline
      = specRandomBaseline 3 2
          ((([1, 2] : List ℕ).sum : ℚ) / ((([1, 2] : List ℕ).length : ℚ))) :=
  ⟨by decide, by decide,
   randomBaseline_combinatorial_or_linear false [] 0 0 [1, 2] [] 3 2
     (by decide) (by decide)⟩

/-! ## C5: accuracy aggregation -/

/-- A per-month row's accuracy field is correct/predictions (0 with no
predictions). -/
def monthAccOK (m : MonthResult) : Prop :=
  m.accuracy
    = if 0 < m.predictions then ((m.correct : ℚ)) / ((m.predictions : ℚ))
      else 0

/-- A backtest record aggregates per-month accuracies by their unweighted
mean, and every row satisfies `monthAccOK`. -/
def recordAccOK (r : BacktestRecord) : Prop :=
  r.overallAccuracy = meanAccuracy r.perMonthResults ∧
  ∀ m ∈ r.perMonthResults, monthAccOK m

theorem assembleRecord_accOK (c : Bool) (pm : List MonthResult)
    (tp tc : ℕ) (cs : List ℕ) (tt : List String) (n t : ℕ)
    (hpm : ∀ m ∈ pm, monthAccOK m) :
    recordAccOK (assembleRecord c pm tp tc cs tt n t) :=
  ⟨rfl, hpm⟩

theorem exceptElim_const_inr {ε α R S : Type} (e : Except ε α) (s : S)
    (g : α → S) :
    exceptElim e (fun _ => (Sum.inr s : Sum R S)) (fun v => Sum.inr (g v))
      = Sum.inr (exceptElim e (fun _ => s) g) := by
  rcases e with x | v <;> rfl

theorem sum_elim_step {R S S2 : Type} (P : R → Prop) (Q : S → Prop)
    (Q2 : S2 → Prop) (x : Sum R S) (hx : Sum.elim P Q x)
    (g : S → Sum R S2) (hg : ∀ s, Q s → Sum.elim P Q2 (g s)) :
    Sum.elim P Q2 (x.elim Sum.inl g) := by
  rcases x with r | s
  · exact hx
  · exact hg s hx

theorem foldl_sum_elim_inv {R S I : Type} (P : R → Prop) (Q : S → Prop)
    (step : S → I → Sum R S) (l : List I)
    (hstep : ∀ s i, Q s → Sum.elim P Q (step s i)) (acc : Sum R S)
    (hacc : Sum.elim P Q acc) :
    Sum.elim P Q
      (l.foldl (fun (a : Sum R S) i => a.elim Sum.inl (fun s => step s i))
        acc) := by
  induction l generalizing acc with
  | nil => exact hacc
  | cons a t ih =>
    rw [List.foldl_cons]
    apply ih
    rcases acc with r | s
    · exact hacc
    · exact hstep s a hacc

theorem btTeamStep_inv (sim : Vect → Vect → ℚ) (store : Store)
    (practices : List String) (cfg : BTConfig) (cancel : Option (ℕ → Bool))
    (months : List ℕ) (testMonth : ℕ) (perMonth : List MonthResult)
    (hpm : ∀ m ∈ perMonth, monthAccOK m) (ts : BTTeamState) (team : String) :
    Sum.elim recordAccOK (fun _ : BTTeamState => True)
      (btTeamStep sim store practices cfg cancel months testMonth perMonth
        ts team) := by
  simp only [btTeamStep, exceptElim_const_inr]
  repeat' split
  all_goals first
    | trivial
    | exact assembleRecord_accOK _ _ _ _ _ _ _ _ hpm

theorem btMonthStep_inv (sim : Vect → Vect → ℚ) (store : Store)
    (practices : List String) (cfg : BTConfig) (cancel : Option (ℕ → Bool))
    (months : List ℕ) (teams : List String) (st : BTState) (idx : ℕ)
    (hst : ∀ m ∈ st.perMonth, monthAccOK m) :
    Sum.elim recordAccOK
      (fun s : BTState => ∀ m ∈ s.perMonth, monthAccOK m)
      (btMonthStep sim store practices cfg cancel months teams st idx) := by
  simp only [btMonthStep]
  split
  · exact assembleRecord_accOK _ _ _ _ _ _ _ _ hst
  · split
    · exact hst
    · split
      · exact assembleRecord_accOK _ _ _ _ _ _ _ _ hst
      · refine sum_elim_step recordAccOK (fun _ : BTTeamState => True)
          (fun s : BTState => ∀ m ∈ s.perMonth, monthAccOK m) _ ?_ _ ?_
        · exact foldl_sum_elim_inv _ _ _ _
            (fun s i _ => btTeamStep_inv _ _ _ _ _ _ _ _ hst s i) _ trivial
        · intro s _
          intro m hm
          rcases List.mem_append.1 hm with h1 | h1
          · exact hst m h1
          · simp only [List.mem_singleton] at h1
            subst h1
            rfl

theorem btResult_of_elim {S : Type} (P : BacktestRecord → Prop)
    (Q : S → Prop) (x : Sum BacktestRecord S) (hx : Sum.elim P Q x)
    (g : S → BacktestRecord) (hg : ∀ s, Q s → P (g s)) (r : BacktestRecord)
    (h : x.elim BacktestResult.ok (fun s => .ok (g s)) = .ok r) : P r := by
  rcases x with r0 | s
  · cases h
    exact hx
  · cases h
    exact hg s hx

theorem runBacktest_ok_accOK (sim : Vect → Vect → ℚ) (store : Store)
    (practices : List String) (cfg : BTConfig) (cancel : Option (ℕ → Bool))
    (r : BacktestRecord)
    (h : runBacktest sim store practices cfg cancel = .ok r) :
    recordAccOK r := by
  simp only [runBacktest] at h
  by_cases hm : (getAllMonths store).length < 4
  · rw [if_pos hm] at h
    exact (BacktestResult.noConfusion h)
  · rw [if_neg hm] at h
    refine btResult_of_elim recordAccOK
      (fun s : BTState => ∀ m ∈ s.perMonth, monthAccOK m) _ ?_ _ ?_ r h
    · exact foldl_sum_elim_inv _ _ _ _
        (fun s i _hq => btMonthStep_inv _ _ _ _ _ _ _ s i _hq) _
        (fun m hm => absurd hm (List.not_mem_nil m))
    · exact fun s hs => ⟨rfl, hs⟩

/-- C5: for every backtest run evaluating at least one test month, the
record's `overall_accuracy` is the unweighted arithmetic mean of the
per-month accuracies, each of which is correct/predictions for that month
(0 when the month had no predictions); and per-month accuracies
`[1/2, 1, 0]` average to exactly `1/2`.  Holds both for completed runs and
for the cancelled partial records, which share the aggregation code. -/
theorem runBacktest_accuracy_aggregation (sim : Vect → Vect → ℚ)
    (store : Store) (practices : List String) (cfg : BTConfig)
    (cancel : Option (ℕ → Bool)) (r : BacktestRecord)
    (h : runBacktest sim store practices cfg cancel = .ok r)
    (hne : r.perMonthResults ≠ []) :
    r.overallAccuracy
      = ((r.perMonthResults.map MonthResult.accuracy).sum)
          / ((r.perMonthResults.length : ℚ)) ∧
    (∀ m ∈ r.perMonthResults,
      m.accuracy
        = if 0 < m.predictions
          then ((m.correct : ℚ)) / ((m.predictions : ℚ)) else 0) ∧
    meanAccuracy
        [⟨4, [1, 2, 3], 2, 1, 1/2, 2⟩, ⟨5, [1, 2, 3, 4], 1, 1, 1, 1⟩,
         ⟨6, [1, 2, 3, 4, 5], 1, 0, 0, 1⟩]
      = 1/2 := by
  obtain ⟨h1, h2⟩ := runBacktest_ok_accOK sim store practices cfg cancel r h
  refine ⟨?_, fun m hm => h2 m hm, ?_⟩
  · rw [h1, meanAccuracy, if_neg hne]
  · norm_num [meanAccuracy, MonthResult.accuracy]
    simp

theorem evalW4_teams : getAllTeams storeW4 = ["A"] := by
  simp [getAllTeams, storeW4]

theorem evalW4_hdA :
    getTeamHistoryD storeW4 "A"
      = [(1, [0]), (2, [0]), (3, [0]), (4, [0])] := by
  simp [getTeamHistoryD, storeW4, lookup_cons_ite]

set_option maxHeartbeats 1600000 in
theorem evalW4_run :
    runBacktest (fun _ _ => 0) storeW4 ["P1"] defaultBTConfig none
      = .ok ⟨[⟨4, [1, 2, 3], 0, 0, 0, 0⟩], 0, 0, 0, 0, 0, 0, 0, 0,
             false⟩ := by
  simp [runBacktest, evalW4_months, evalW4_teams, evalW4_hdA, btMonthStep,
    btTeamStep, pollCancel, thMem, thGetD, sortNat, idxOf,
    improvedPractices, assembleRecord, meanAccuracy, randomBaselineOf,
    lookup_cons_ite, List.insertionSort, List.orderedInsert, List.enum,
    List.enumFrom, List.range', exceptElim_error, exceptElim_ok]
  try norm_num [meanAccuracy]
  try simp
  try norm_num

/-- Instantiation of the accuracy-aggregation theorem on a concrete
four-month store: the single test month has no predictions, so its
accuracy is `0` and the overall accuracy is the mean of `[0]`. -/
theorem runBacktest_accuracy_aggregation_witness :
    (runBacktest (fun _ _ => 0) storeW4 ["P1"] defaultBTConfig none
        = .ok ⟨[⟨4, [1, 2, 3], 0, 0, 0, 0⟩], 0, 0, 0, 0, 0, 0, 0, 0,
               false⟩) ∧
    ((⟨[⟨4, [1, 2, 3], 0, 0, 0, 0⟩], 0, 0, 0, 0, 0, 0, 0, 0, false⟩ :
        BacktestRecord).perMonthResults ≠ []) ∧
    (⟨[⟨4, [1, 2, 3], 0, 0, 0, 0⟩], 0, 0, 0, 0, 0, 0, 0, 0, false⟩ :
        BacktestRecord).overallAccuracy
      = ((((⟨[⟨4, [1, 2, 3], 0, 0, 0, 0⟩], 0, 0, 0, 0, 0, 0, 0, 0, false⟩ :
            BacktestRecord).perMonthResults.map MonthResult.accuracy).sum)
          / (((⟨[⟨4, [1, 2, 3], 0, 0, 0, 0⟩], 0, 0, 0, 0, 0, 0, 0, 0,
               false⟩ :
            BacktestRecord).perMonthResults.length : ℚ))) :=
  ⟨evalW4_run, by simp,
   (runBacktest_accuracy_aggregation (fun _ _ => 0) storeW4 ["P1"]
     defaultBTConfig none _ evalW4_run (by simp)).1⟩

/-! ## C3: the anti-leakage guarantee of `learn_sequences_up_to_month` -/

theorem restrict_foldr_concat (s : Store) (M : ℕ) :
    (restrictStore s M).foldr (fun th acc => th.2.map Prod.fst ++ acc) []
      = ((s.foldr (fun th acc => th.2.map Prod.fst ++ acc) []).filter
          (fun m => decide (m < M))) := by
  induction s with
  | nil => rfl
  | cons th t ih =>
    simp only [restrictStore, List.map_cons, List.foldr_cons] at ih ⊢
    rw [ih, List.filter_append]
    congr 1
    rw [List.filter_map]
    exact (List.filter_congr (fun a _ => rfl)).symm ▸ rfl

theorem getAllTeams_restrict (s : Store) (M : ℕ) :
    getAllTeams (restrictStore s M) = getAllTeams s := by
  simp only [getAllTeams, restrictStore, List.map_map]
  have hf : (Prod.fst ∘ fun th : String × THist =>
      (th.1, List.filter (fun p => decide (p.1 < M)) th.2)) = Prod.fst := by
    funext th
    rfl
  rw [hf]

theorem lookup_restrict (s : Store) (M : ℕ) (t : String) :
    List.lookup t (restrictStore s M)
      = (List.lookup t s).map
          (fun h => h.filter (fun p => decide (p.1 < M))) := by
  induction s with
  | nil => rfl
  | cons th tl ih =>
    rw [show restrictStore (th :: tl) M
        = (th.1, th.2.filter (fun p => decide (p.1 < M)))
            :: restrictStore tl M from rfl]
    rcases th with ⟨k, v⟩
    rw [lookup_cons_ite, lookup_cons_ite]
    by_cases he : t = k
    · simp [he]
    · simp [he, ih]

theorem getTeamHistoryD_restrict (s : Store) (M : ℕ) (t : String) :
    getTeamHistoryD (restrictStore s M) t
      = (getTeamHistoryD s t).filter (fun p => decide (p.1 < M)) := by
  rw [getTeamHistoryD, getTeamHistoryD, lookup_restrict]
  rcases List.lookup t s with _ | h <;> rfl

theorem lookup_filter_lt {β : Type} (m M : ℕ) (hm : m < M)
    (l : List (ℕ × β)) :
    List.lookup m (l.filter (fun p => decide (p.1 < M)))
      = List.lookup m l := by
  induction l with
  | nil => rfl
  | cons kv t ih =>
    rcases kv with ⟨k, v⟩
    by_cases hk : k < M
    · rw [show ((k, v) :: t).filter (fun p => decide (p.1 < M))
          = (k, v) :: t.filter (fun p => decide (p.1 < M)) from by
          simp [List.filter_cons, hk],
        lookup_cons_ite, lookup_cons_ite, ih]
    · rw [show ((k, v) :: t).filter (fun p => decide (p.1 < M))
          = t.filter (fun p => decide (p.1 < M)) from by
          simp [List.filter_cons, hk],
        ih, lookup_cons_ite, if_neg (show ¬ m = k from by omega)]

theorem thMem_filter_lt (m M : ℕ) (hm : m < M) (h : THist) :
    thMem (h.filter (fun p => decide (p.1 < M))) m = thMem h m := by
  rw [thMem, thMem, lookup_filter_lt m M hm]

theorem thGetD_filter_lt (m M : ℕ) (hm : m < M) (h : THist) :
    thGetD (h.filter (fun p => decide (p.1 < M))) m = thGetD h m := by
  rw [thGetD, thGetD, lookup_filter_lt m M hm]

theorem sortNat_dedup_filter (C : List ℕ) (p : ℕ → Bool) :
    sortNat ((C.filter p).dedup) = (sortNat C.dedup).filter p := by
  simp only [sortNat]
  apply List.eq_of_perm_of_sorted (r := (· ≤ ·))
  · refine (List.perm_ext_iff_of_nodup ?_ ?_).2 ?_
    · exact ((List.perm_insertionSort _ _).nodup_iff).2 (List.nodup_dedup _)
    · exact (((List.perm_insertionSort _ _).nodup_iff).2
        (List.nodup_dedup _)).filter p
    · intro a
      constructor
      · intro ha
        have h2 : a ∈ C.filter p :=
          List.mem_dedup.1 ((List.perm_insertionSort _ _).mem_iff.1 ha)
        have h3 := List.mem_filter.1 h2
        exact List.mem_filter.2
          ⟨(List.perm_insertionSort _ _).mem_iff.2 (List.mem_dedup.2 h3.1),
           h3.2⟩
      · intro ha
        have h3 := List.mem_filter.1 ha
        have h1 : a ∈ C :=
          List.mem_dedup.1 ((List.perm_insertionSort _ _).mem_iff.1 h3.1)
        exact (List.perm_insertionSort _ _).mem_iff.2
          (List.mem_dedup.2 (List.mem_filter.2 ⟨h1, h3.2⟩))
  · exact List.sorted_insertionSort _ _
  · exact (List.sorted_insertionSort _ _).filter p

theorem getAllMonths_restrict (s : Store) (M : ℕ) :
    getAllMonths (restrictStore s M)
      = (getAllMonths s).filter (fun m => decide (m < M)) := by
  simp only [getAllMonths]
  rw [restrict_foldr_concat]
  exact sortNat_dedup_filter _ _

theorem zip_tail_nil {α : Type} (l : List α) (h : l.length ≤ 1) :
    l.zip l.tail = [] := by
  rcases l with _ | ⟨a, _ | ⟨b, t⟩⟩
  · rfl
  · rfl
  · simp at h

theorem teamPairs_short (monthsAvail : List ℕ) (h : THist)
    (hlen : monthsAvail.length ≤ 1) : teamPairs monthsAvail h = [] := by
  simp only [teamPairs, sortNat]
  apply zip_tail_nil
  calc (List.insertionSort (· ≤ ·)
          (monthsAvail.filter fun m => thMem h m)).length
      = (monthsAvail.filter fun m => thMem h m).length :=
        (List.perm_insertionSort _ _).length_eq
    _ ≤ monthsAvail.length := List.length_filter_le _ _
    _ ≤ 1 := hlen

theorem teamPairs_mem (monthsAvail : List ℕ) (h : THist) (p : ℕ × ℕ)
    (hp : p ∈ teamPairs monthsAvail h) :
    p.1 ∈ monthsAvail ∧ p.2 ∈ monthsAvail := by
  simp only [teamPairs, sortNat] at hp
  rcases p with ⟨a, b⟩
  have h1 := List.of_mem_zip hp
  constructor
  · have h2 := (List.perm_insertionSort _ _).mem_iff.1 h1.1
    exact (List.mem_filter.1 h2).1
  · have hb := List.mem_of_mem_tail h1.2
    have h2 := (List.perm_insertionSort _ _).mem_iff.1 hb
    exact (List.mem_filter.1 h2).1

theorem teamPairs_restrict (available : List ℕ) (M : ℕ) (h : THist)
    (hav : ∀ m ∈ available, m < M) :
    teamPairs available (h.filter (fun p => decide (p.1 < M)))
      = teamPairs available h := by
  simp only [teamPairs]
  rw [List.filter_congr
    (fun m hm => thMem_filter_lt m M (hav m hm) h)]

theorem foldl_congr_mem {α β : Type} (l : List α) (f g : β → α → β)
    (h : ∀ b, ∀ a ∈ l, f b a = g b a) (init : β) :
    l.foldl f init = l.foldl g init := by
  induction l generalizing init with
  | nil => rfl
  | cons a t ih =>
    rw [List.foldl_cons, List.foldl_cons, h init a (List.mem_cons_self a t)]
    exact ih (fun b x hx => h b x (List.mem_cons_of_mem a hx)) _

theorem foldl_fixed {α β : Type} (l : List α) (init : β) :
    l.foldl (fun b _ => b) init = init := by
  induction l generalizing init with
  | nil => rfl
  | cons a t ih =>
    rw [List.foldl_cons]
    exact ih _

/-- C3: the model learned by `learn_sequences_up_to_month(M)` equals the
model learned by the unrestricted `learn_sequences` on the store with every
month `≥ M` deleted from every team history: every transition edge and
every frequency increment comes from a consecutive month pair with both
months strictly below the cutoff, and months at or after `M` contribute
nothing.  (The early `⟨[], []⟩` return for fewer than two available months
agrees with the unrestricted learner on the truncated store, which then has
no consecutive pair to learn from.) -/
theorem learnUpTo_eq_learnAll_restrict (store : Store)
    (practices : List String) (M : ℕ) :
    learnUpTo store practices M
      = learnAll (restrictStore store M) practices := by
  simp only [learnUpTo, learnAll, getAllTeams_restrict,
    getAllMonths_restrict]
  by_cases hlen :
      ((getAllMonths store).filter (fun m => decide (m < M))).length < 2
  · rw [if_pos hlen]
    symm
    refine Eq.trans
      (foldl_congr_mem _ _ (fun (sm : SeqModel) _ => sm) ?_ _)
      (foldl_fixed _ _)
    intro sm t _
    rw [teamPairs_short _ _ (by omega)]
    rfl
  · rw [if_neg hlen]
    apply foldl_congr_mem
    intro sm t _
    have hav : ∀ m ∈ (getAllMonths store).filter (fun m => decide (m < M)),
        m < M := by
      intro m hm
      have h2 := (List.mem_filter.1 hm).2
      simpa using h2
    rw [getTeamHistoryD_restrict, teamPairs_restrict _ M _ hav]
    apply foldl_congr_mem
    intro sm2 p hp
    have hmem := teamPairs_mem _ _ p hp
    have h1 : p.1 < M := hav _ hmem.1
    have h2 : p.2 < M := hav _ hmem.2
    rw [if_neg (show ¬ (M ≤ p.1 ∨ M ≤ p.2) from by omega)]
    rw [thGetD_filter_lt _ M h1, thGetD_filter_lt _ M h2]

/-! ## C6: optimizer ranking -/

/-- The best-so-far update of the optimizer loop: replace only on a
strictly greater `improvement_gap` (ties keep the earlier entry). -/
def bestFoldStep (b e : OptEntry) : OptEntry :=
  if b.improvementGap < e.improvementGap then e else b

/-- Best entry of `x :: l` under the optimizer's strict-update rule. -/
def bestFold (x : OptEntry) (l : List OptEntry) : OptEntry :=
  l.foldl bestFoldStep x

theorem bestFold_append (x : OptEntry) (t : List OptEntry) (e : OptEntry) :
    bestFold x (t ++ [e]) = bestFoldStep (bestFold x t) e := by
  simp [bestFold, List.foldl_append]

theorem bestFold_cons (x y : OptEntry) (t : List OptEntry) :
    bestFold x (y :: t)
      = if (bestFold y t).improvementGap ≤ x.improvementGap then x
        else bestFold y t := by
  induction t generalizing x y with
  | nil =>
    simp only [bestFold, List.foldl_cons, List.foldl_nil, bestFoldStep]
    split_ifs <;> first
      | rfl
      | (exfalso; linarith)
  | cons z t' ih =>
    rw [show bestFold x (y :: z :: t')
        = bestFold (bestFoldStep x y) (z :: t') from rfl]
    rw [ih (bestFoldStep x y) z, ih y z]
    simp only [bestFoldStep]
    split_ifs <;> first
      | rfl
      | (exfalso; linarith)

theorem sortByGap_head (x : OptEntry) (l : List OptEntry) :
    (sortByGap (x :: l)).head? = some (bestFold x l) := by
  induction l generalizing x with
  | nil => rfl
  | cons y t ih =>
    rw [bestFold_cons]
    rw [show sortByGap (x :: y :: t)
        = List.orderedInsert
            (fun a b : OptEntry => b.improvementGap ≤ a.improvementGap) x
            (sortByGap (y :: t)) from rfl]
    rcases hs : sortByGap (y :: t) with _ | ⟨b, s'⟩
    · exfalso
      have h0 := ih y
      rw [hs] at h0
      simp at h0
    · have h0 := ih y
      rw [hs] at h0
      have hb : b = bestFold y t := by simpa using h0
      simp only [List.orderedInsert]
      by_cases hr : (bestFold y t).improvementGap ≤ x.improvementGap
      · rw [if_pos (show b.improvementGap ≤ x.improvementGap from by
            rw [hb]; exact hr),
          if_pos hr]
        rfl
      · rw [if_neg (show ¬ b.improvementGap ≤ x.improvementGap from by
            rw [hb]; exact hr),
          if_neg hr]
        simp [hb]

/-- The optimizer's tracked best is the strict-update fold of the accepted
entries in order (and is `none` exactly while no entry was accepted). -/
def bestTracks (valid : List OptEntry) (best : Option OptEntry) : Prop :=
  (valid = [] ∧ best = none) ∨
  ∃ x t, valid = x :: t ∧ best = some (bestFold x t)

theorem optLoop_inv (minAcc eT eF : ℚ) (total : ℕ) (cf : ℕ → Bool) :
    ∀ (combos : List (BTConfig × BacktestResult)) (idx : ℕ)
      (valid : List OptEntry) (best : Option OptEntry),
      bestTracks valid best →
      bestTracks (optLoop minAcc eT eF total cf idx combos valid best).valid
        (optLoop minAcc eT eF total cf idx combos valid best).best := by
  intro combos
  induction combos with
  | nil =>
    intro idx valid best h
    exact h
  | cons cr rest ih =>
    intro idx valid best h
    rcases cr with ⟨cfg, res⟩
    simp only [optLoop]
    by_cases hcf : cf idx = true
    · rw [if_pos hcf]
      exact h
    · rw [if_neg hcf]
      rcases res with msg | r
      · rw [btrElim_error]
        exact ih _ _ _ h
      · rw [btrElim_ok]
        by_cases hrc : r.cancelled = true
        · rw [if_pos hrc]
          exact h
        · rw [if_neg hrc]
          by_cases hacc : minAcc ≤ r.overallAccuracy
          · rw [if_pos hacc]
            rcases h with ⟨hv, hb⟩ | ⟨x, t, hv, hb⟩
            · subst hv
              subst hb
              simp only [Option.elim]
              rw [if_pos trivial]
              split
              · exact .inr ⟨_, [], rfl, rfl⟩
              · split
                · exact .inr ⟨_, [], rfl, rfl⟩
                · exact ih _ _ _ (.inr ⟨_, [], rfl, rfl⟩)
            · subst hv
              subst hb
              simp only [Option.elim]
              split
              · next hdec =>
                split
                · exact .inr ⟨x, _, rfl, by
                    simp only [List.append_eq]
                    rw [bestFold_append]
                    simp only [bestFoldStep]
                    rw [if_pos (of_decide_eq_true hdec)]⟩
                · split
                  · exact .inr ⟨x, _, rfl, by
                      simp only [List.append_eq]
                      rw [bestFold_append]
                      simp only [bestFoldStep]
                      rw [if_pos (of_decide_eq_true hdec)]⟩
                  · exact ih _ _ _ (.inr ⟨x, _, rfl, by
                      simp only [List.append_eq]
                      rw [bestFold_append]
                      simp only [bestFoldStep]
                      rw [if_pos (of_decide_eq_true hdec)]⟩)
              · next hdec =>
                simp only [decide_eq_true_eq] at hdec
                exact ih _ _ _ (.inr ⟨x, _, rfl, by
                  simp only [List.append_eq]
                  rw [bestFold_append]
                  simp only [bestFoldStep]
                  rw [if_neg hdec]⟩)
          · rw [if_neg hacc]
            exact ih _ _ _ h

instance : IsTotal OptEntry
    (fun a b : OptEntry => b.improvementGap ≤ a.improvementGap) :=
  ⟨fun a b => (le_total b.improvementGap a.improvementGap).elim .inl .inr⟩

instance : IsTrans OptEntry
    (fun a b : OptEntry => b.improvementGap ≤ a.improvementGap) :=
  ⟨fun _ _ _ hab hbc => le_trans hbc hab⟩

/-- C6: in every `find_optimal_config` result, `all_results` is sorted in
descending order of `improvement_gap`, holds at most 50 entries, and
whenever it is non-empty `optimal_config` is the config of its first
entry: the tracked best (first entry attaining the maximal gap, since the
best is replaced only on a strictly greater gap) coincides with the head
of the stable descending sort. -/
theorem findOptimal_sorted_capped_head (minAcc : ℚ)
    (combos : List (BTConfig × BacktestResult)) (eT eF : ℚ)
    (cf : ℕ → Bool) :
    List.Sorted (fun a b : OptEntry => b.improvementGap ≤ a.improvementGap)
      (findOptimalAggregate minAcc combos eT eF cf).allResults ∧
    (findOptimalAggregate minAcc combos eT eF cf).allResults.length ≤ 50 ∧
    ∀ hd tl,
      (findOptimalAggregate minAcc combos eT eF cf).allResults = hd :: tl →
      (findOptimalAggregate minAcc combos eT eF cf).optimalConfig
        = some hd.config := by
  have hout := optLoop_inv minAcc eT eF combos.length cf combos 0 [] none
    (.inl ⟨rfl, rfl⟩)
  refine ⟨?_, ?_, ?_⟩
  · simp only [findOptimalAggregate, sortByGap]
    exact List.Pairwise.sublist (List.take_sublist _ _)
      (List.sorted_insertionSort _ _)
  · simp only [findOptimalAggregate]
    exact List.length_take_le _ _
  · intro hd tl hEq
    simp only [findOptimalAggregate] at hEq ⊢
    rcases hout with ⟨hv, hb⟩ | ⟨x, t, hv, hb⟩
    · exfalso
      rw [hv] at hEq
      simp [sortByGap] at hEq
    · have hh := sortByGap_head x t
      rcases hs : sortByGap (x :: t) with _ | ⟨b, s'⟩
      · rw [hs] at hh
        simp at hh
      · rw [hs] at hh
        have hbb : b = bestFold x t := by simpa using hh
        rw [hv, hs, show (b :: s').take 50 = b :: s'.take 49 from rfl] at hEq
        cases hEq
        rw [hb, ← hbb]
        rfl

theorem evalOpt_run :
    (findOptimalAggregate 0
        [(defaultBTConfig, .ok ⟨[], 0, 0, 1/2, 0, 3/10, 0, 0, 0, false⟩)]
        1 (1/2) (fun _ => false)).allResults
      = [⟨defaultBTConfig, 1/2, 0, 3/10, 0, 0, 0⟩] ∧
    (findOptimalAggregate 0
        [(defaultBTConfig, .ok ⟨[], 0, 0, 1/2, 0, 3/10, 0, 0, 0, false⟩)]
        1 (1/2) (fun _ => false)).optimalConfig
      = some defaultBTConfig := by
  constructor <;>
    norm_num [findOptimalAggregate, optLoop, btrElim, sortByGap,
      Option.elim, List.insertionSort, List.orderedInsert]

/-- Instantiation of the optimizer-ranking theorem on a one-combination
grid whose single accepted entry early-stops the search. -/
theorem findOptimal_sorted_capped_head_witness :
    ((findOptimalAggregate 0
        [(defaultBTConfig, .ok ⟨[], 0, 0, 1/2, 0, 3/10, 0, 0, 0, false⟩)]
        1 (1/2) (fun _ => false)).allResults
      = (⟨defaultBTConfig, 1/2, 0, 3/10, 0, 0, 0⟩ : OptEntry) :: []) ∧
    (findOptimalAggregate 0
        [(defaultBTConfig, .ok ⟨[], 0, 0, 1/2, 0, 3/10, 0, 0, 0, false⟩)]
        1 (1/2) (fun _ => false)).optimalConfig
      = some (⟨defaultBTConfig, 1/2, 0, 3/10, 0, 0, 0⟩ : OptEntry).config :=
  ⟨evalOpt_run.1,
   (findOptimal_sorted_capped_head 0 _ 1 (1/2) (fun _ => false)).2.2 _ []
     evalOpt_run.1⟩
